import Mathlib

/-!
# Verification of the schema.org ontology resolver
  (`tool/webqa-process-schemaorg.js`)

This file gives a shallow embedding of the classification / property-type
resolution / compound-building / canonical-phrase / emission pipeline of the
schema.org processor, and proves or refutes the frozen claims about it.

Conventions of the embedding:
* the JS `typeHierarchy` object is an association list `TypeHierarchy`
  (JS object keys are unique and insertion-ordered);
* ThingTalk types (`ThingTalk.Type`) are the inductive `TTType`;
* recursive JS functions that can diverge on crafted inputs (the cycle
  finder, ancestor propagation, subclass tests, topological sort, the
  mutually recursive type resolution) take a fuel parameter and return
  `Except`, where `.error` models both a thrown exception and divergence;
* JS mutation of per-node flags is modelled by rebuilding the association
  list (`setStruct`).
-/

/-- ThingTalk semantic types, as used by the processor
(`ThingTalk.Type` constructors that actually occur in the source). -/
inductive TTType where
  | time
  | number
  | string
  | boolean
  | date
  | anyType
  | location
  | currency
  | entity (name : String)
  | measure (unit : String)
  | enumT (values : List String)
  | arrayT (elem : TTType)
  | compound (name : String) (fields : List (String × TTType))
deriving Repr

/-- `Type.isArray` -/
def TTType.isArray : TTType → Bool
  | .arrayT _ => true
  | _ => false

/-- `Type.isBoolean` -/
def TTType.isBooleanT : TTType → Bool
  | .boolean => true
  | _ => false

/-- `Type.isEnum` -/
def TTType.isEnumTT : TTType → Bool
  | .enumT _ => true
  | _ => false

/-- `Type.isMeasure` -/
def TTType.isMeasureT : TTType → Bool
  | .measure _ => true
  | _ => false

/-- `Type.isString` -/
def TTType.isStringT : TTType → Bool
  | .string => true
  | _ => false

/-- Field names of a compound type (empty for non-compound types);
used to state facts about emitted struct fields. -/
def TTType.fieldNames : TTType → List String
  | .compound _ fs => fs.map (·.1)
  | _ => []

/-- A property definition in the type hierarchy:
`{ types: [type], comment: ... }`. -/
structure PropertyDef where
  types : List String
  comment : String
deriving Repr, DecidableEq

/-- A node of `typeHierarchy`, with the derived classification flags
(the flags are the fields the classification loop at lines 772-799 adds;
`extends_` embeds the JS field `extends`, `enum` is `enumValues`). -/
structure TypeDef where
  extends_ : List String
  properties : List (String × PropertyDef)
  comment : String
  isAction : Bool := false
  isEnum : Bool := false
  enumValues : List String := []
  isItemList : Bool := false
  itemType : Option String := none
  isStructSubType : Bool := false
  representAsStruct : Bool := false
deriving Repr, DecidableEq

/-- `typeHierarchy`: a JS object used as a map from type name to node. -/
abbrev TypeHierarchy := List (String × TypeDef)

/-- `typeHierarchy[name]` (JS property access, `undefined` as `none`). -/
def lookupType (H : TypeHierarchy) (name : String) : Option TypeDef :=
  (H.find? (·.1 == name)).map (·.2)

/-- Generic association-list lookup (JS object / `Map` access). -/
def lookupAssoc {α : Type} (l : List (String × α)) (name : String) : Option α :=
  (l.find? (·.1 == name)).map (·.2)

/-! ## Character-list string helpers

The JS string operations are embedded on character lists so that concrete
instances reduce definitionally (the builtin `String` operations recurse on
byte positions with well-founded recursion and concrete instances get stuck).
-/

/-- Whether `pat` occurs at the start of `s` (on character lists). -/
def startsWithList (pat s : List Char) : Bool :=
  match pat, s with
  | [], _ => true
  | _ :: _, [] => false
  | p :: ps, c :: cs => p == c && startsWithList ps cs

/-- Whether `pat` occurs anywhere inside `s` (on character lists). -/
def containsList (pat : List Char) : List Char → Bool
  | [] => startsWithList pat []
  | c :: cs => startsWithList pat (c :: cs) || containsList pat cs

/-- `s.startsWith(pat)` -/
def strStartsWith (s pat : String) : Bool := startsWithList pat.toList s.toList

/-- `s.endsWith(pat)` -/
def strEndsWith (s pat : String) : Bool := startsWithList pat.toList.reverse s.toList.reverse

/-- `s.toLowerCase()` (the inputs involved are ASCII). -/
def strToLower (s : String) : String := String.mk (s.toList.map Char.toLower)

/-- `s.substring(n)` -/
def strDrop (s : String) (n : Nat) : String := String.mk (s.toList.drop n)

/-- `s.substring(0, s.length - n)` -/
def strDropRight (s : String) (n : Nat) : String :=
  String.mk (s.toList.take (s.toList.length - n))

/-- Character-wise mapping (for `name.replace(/ /g, '_')`). -/
def strMapChars (f : Char → Char) (s : String) : String := String.mk (s.toList.map f)

/-- One-character split, keeping empty segments (JS `split(' ')`). -/
def splitOnCharList (c : Char) : List Char → List (List Char)
  | [] => [[]]
  | x :: xs =>
    let r := splitOnCharList c xs
    if x == c then [] :: r
    else match r with
      | [] => [[x]]
      | h :: t => (x :: h) :: t

/-- `s.split(' ')` -/
def splitSpace (s : String) : List String := (splitOnCharList ' ' s.toList).map String.mk

/-- `parts.join(' ')` -/
def joinSpace : List String → String
  | [] => ""
  | [x] => x
  | x :: xs => x ++ " " ++ joinSpace xs

/-- Trim spaces at both ends. -/
def trimSpaces (s : String) : String :=
  String.mk (((s.toList.dropWhile (· == ' ')).reverse.dropWhile (· == ' ')).reverse)

/-! ## Static configuration tables (the module constants of the source) -/

/-- `BUILTIN_TYPEMAP` -/
def BUILTIN_TYPEMAP : List (String × TTType) := [
  ("Time", .time),
  ("Number", .number),
  ("Float", .number),
  ("Integer", .number),
  ("Text", .string),
  ("Boolean", .boolean),
  ("DateTime", .date),
  ("Date", .date),
  ("DataType", .anyType),
  ("URL", .entity "tt:url"),
  ("ImageObject", .entity "tt:picture"),
  ("Barcode", .entity "tt:picture"),
  ("Mass", .measure "kg"),
  ("Energy", .measure "kcal"),
  ("Distance", .measure "m"),
  ("Duration", .measure "ms"),
  ("GeoCoordinates", .location),
  ("MonetaryAmount", .currency),
  ("QuantitativeValue", .anyType)
]

/-- `type in BUILTIN_TYPEMAP` -/
def isBuiltin (ty : String) : Bool := BUILTIN_TYPEMAP.any (·.1 == ty)

/-- `KEYWORDS` (reserved ThingTalk identifiers) -/
def KEYWORDS : List String := [
  "let", "now", "new", "as", "of", "in", "out", "req", "opt", "notify", "return",
  "join", "edge", "monitor", "class", "extends", "mixin", "this", "import", "null",
  "enum", "aggregate", "dataset", "oninput", "sort", "asc", "desc", "bookkeeping",
  "compute", "true", "false"
]

/-- `BLACKLISTED_PROPERTIES` -/
def BLACKLISTED_PROPERTIES : List String := [
  "sameAs", "affiliation", "mainEntityOfPage", "embedUrl",
  "itemReviewed", "bestRating", "worstRating", "reviewBody",
  "eligibleTransactionVolume", "addOn", "areaServed", "priceCurrency"
]

/-- `STRUCTURED_HIERARCHIES` -/
def STRUCTURED_HIERARCHIES : List String := ["StructuredValue", "Rating", "Offer"]

/-- `NON_STRUCT_TYPES` (empty in the source) -/
def NON_STRUCT_TYPES : List String := []

/-- `PROPERTY_FORCE_ARRAY` -/
def PROPERTY_FORCE_ARRAY : List String := ["worksFor", "recipeCuisine", "recipeCategory"]

/-- `PROPERTY_FORCE_NOT_ARRAY` -/
def PROPERTY_FORCE_NOT_ARRAY : List String := ["offers"]

/-- `PROPERTY_TYPE_OVERRIDE` -/
def PROPERTY_TYPE_OVERRIDE : List (String × TTType) := [
  ("telephone", .entity "tt:phone_number"),
  ("email", .entity "tt:email_address"),
  ("image", .entity "tt:picture"),
  ("logo", .entity "tt:picture"),
  ("checkinTime", .time),
  ("checkoutTime", .time),
  ("price", .currency),
  ("weight", .measure "ms"),
  ("depth", .measure "m"),
  ("description", .string),
  ("addressCountry", .entity "tt:country"),
  ("addressRegion", .entity "tt:us_state"),
  ("video", .entity "org.schema:VideoObject"),
  ("publisher", .entity "org.schema:Organization"),
  ("recipeYield", .string)
]

/-- `STRUCT_INCLUDE_THING_PROPERTIES` -/
def STRUCT_INCLUDE_THING_PROPERTIES : List String := ["LocationFeatureSpecification"]

/-- `PROPERTIES_NO_FILTER` -/
def PROPERTIES_NO_FILTER : List String :=
  ["name", "priceRange", "gtin13", "productID", "mpn"]

/-! ## Classification (`run`, lines 683-799)

`isSubClass` follows `extends` edges with no visited set, so it diverges on a
cyclic `extends` graph; the fuel models that. -/

mutual

/-- `isSubClass(typename, subtypeof)` (lines 683-694). The node must exist
(the JS code reads `.extends` unconditionally; a missing node is a crash,
modelled as `.error`). -/
def isSubClass : Nat → TypeHierarchy → String → String → Except Unit Bool
  | 0, _, _, _ => .error ()
  | fuel+1, H, t, sub =>
    match lookupType H t with
    | none => .error ()
    | some d => isSubClassList fuel H d.extends_ sub

/-- The `for (let _extend of ...extends)` loop inside `isSubClass`. -/
def isSubClassList : Nat → TypeHierarchy → List String → String → Except Unit Bool
  | 0, _, _, _ => .error ()
  | _+1, _, [], _ => .ok false
  | fuel+1, H, e :: rest, sub =>
    if e == sub then .ok true
    else match lookupType H e with
      | none => isSubClassList fuel H rest sub
      | some _ => do
        if (← isSubClass fuel H e sub) then .ok true
        else isSubClassList fuel H rest sub

end

/-- `getItemType(typename, typeHierarchy)` (lines 356-371); the diagnostic
`console.error` has no effect on the result. -/
def getItemType (typename : String) (H : TypeHierarchy) : String :=
  if strEndsWith typename "List" then
    let itemname := strDropRight typename 4
    if (lookupType H itemname).isSome then itemname else "Thing"
  else if strEndsWith typename "Collection" then
    let itemname := strDropRight typename 10
    if (lookupType H itemname).isSome then itemname else "Thing"
  else if strEndsWith typename "Section" then
    let itemname := strDropRight typename 7
    if (lookupType H itemname).isSome then itemname else "Thing"
  else if strEndsWith typename "Catalog" then
    let itemname := strDropRight typename 7
    if (lookupType H itemname).isSome then itemname else "Thing"
  else "Thing"

/-- The `for (let structBase of STRUCTURED_HIERARCHIES)` fallback loop of
lines 786-792 (stops at the first base the node is a subclass of). -/
def structLineageGo (fuel : Nat) (H : TypeHierarchy) (t : String) :
    List String → Except Unit Bool
  | [] => .ok false
  | base :: rest => do
    if (← isSubClass fuel H t base) then .ok true else structLineageGo fuel H t rest

/-- The struct-lineage test of lines 782-793: `type` is one of
`STRUCTURED_HIERARCHIES`, or `isSubClass` of one of them (evaluated in table
order, stopping at the first hit, errors propagating). -/
def structLineage (fuel : Nat) (H : TypeHierarchy) (t : String) : Except Unit Bool :=
  if STRUCTURED_HIERARCHIES.contains t then .ok true
  else structLineageGo fuel H t STRUCTURED_HIERARCHIES

/-- The flag computation for one node (body of the loop at lines 772-799).
`enums` is the `enums` map built from the input (name of an enum type to its
declared values); per the source an entry is always a non-empty array, so
presence alone decides `!!enums[type]`. -/
def computeFlagsEntry (fuel : Nat) (H : TypeHierarchy) (enums : List (String × List String))
    (t : String) (d : TypeDef) : Except Unit TypeDef := do
  let isAction ← isSubClass fuel H t "Action"
  let isEnum := (lookupAssoc enums t).isSome || (← isSubClass fuel H t "Enumeration")
  let enumVals := if isEnum then ((lookupAssoc enums t).getD []) else d.enumValues
  let isItemList ← isSubClass fuel H t "ItemList"
  let itemType := if isItemList then some (getItemType t H) else d.itemType
  let lineage ← structLineage fuel H t
  let isStructSubType := if lineage then true else d.isStructSubType
  let representAsStruct := if lineage then true else d.representAsStruct
  let isStructSubType := if NON_STRUCT_TYPES.contains t then false else isStructSubType
  let representAsStruct := if NON_STRUCT_TYPES.contains t then false else representAsStruct
  .ok { d with
        isAction := isAction, isEnum := isEnum, enumValues := enumVals,
        isItemList := isItemList, itemType := itemType,
        isStructSubType := isStructSubType, representAsStruct := representAsStruct }

/-- Pointwise flag computation over a list of entries, reading from the fixed
full hierarchy `H`. -/
def computeFlagsAux (fuel : Nat) (H : TypeHierarchy) (enums : List (String × List String)) :
    List (String × TypeDef) → Except Unit (List (String × TypeDef))
  | [] => .ok []
  | (t, d) :: rest => do
    let d' ← computeFlagsEntry fuel H enums t d
    let rest' ← computeFlagsAux fuel H enums rest
    .ok ((t, d') :: rest')

/-- The whole classification loop (lines 772-799): every node's flags are
computed; `isSubClass` reads only `extends`, which the loop never changes, so
per-entry computation over the input hierarchy is faithful. -/
def computeFlags (fuel : Nat) (enums : List (String × List String))
    (H : TypeHierarchy) : Except Unit TypeHierarchy :=
  computeFlagsAux fuel H enums H

/-! ## Cycle detection and breaking (lines 801-833) -/

/-- Set the `representAsStruct` flag of one node (JS
`typeHierarchy[typename].representAsStruct = false` rebuilt functionally;
JS object keys are unique, so mapping over all matching keys is faithful). -/
def setStruct (H : TypeHierarchy) (name : String) (b : Bool) : TypeHierarchy :=
  H.map (fun p => if p.1 == name then (p.1, { p.2 with representAsStruct := b }) else p)

/-- The candidate types of all properties of a node, in iteration order
(the two nested loops of `findCycle`, lines 809-811). -/
def propTargets (d : TypeDef) : List String :=
  (d.properties.map (fun p => p.2.types)).flatten

/-- The targets `findCycle` actually recurses into: candidate types that are
not builtin and whose node exists and is currently struct-representable
(the two `continue`s at lines 812-815). The hierarchy is immutable during one
`findCycle` run, so pre-filtering is faithful. -/
def structTargets (H : TypeHierarchy) (d : TypeDef) : List String :=
  (propTargets d).filter (fun ty =>
    !isBuiltin ty &&
      (match lookupType H ty with
       | some dt => dt.representAsStruct
       | none => false))

mutual

/-- `findCycle(typename, lookfor, visited)` (lines 801-823), returning the
found-flag together with the final visited set (the JS `visited` `Set` is
mutated in place; the `cycle` argument is only logged). A missing node is a
crash (`.error`); the fuel models the recursion. -/
def findCycle : Nat → TypeHierarchy → String → String → List String →
    Except Unit (Bool × List String)
  | 0, _, _, _, _ => .error ()
  | fuel+1, H, lookfor, t, visited =>
    if t ∈ visited then .ok (t == lookfor, visited)
    else
      match lookupType H t with
      | none => .error ()
      | some d => findCycleList fuel H lookfor (structTargets H d) (t :: visited)

/-- The iteration of `findCycle` over the recursion targets of the current
node (returns at the first cycle found). -/
def findCycleList : Nat → TypeHierarchy → String → List String → List String →
    Except Unit (Bool × List String)
  | 0, _, _, _, _ => .error ()
  | _+1, _, _, [], visited => .ok (false, visited)
  | fuel+1, H, lookfor, v :: rest, visited => do
    let r ← findCycle fuel H lookfor v visited
    if r.1 then .ok (true, r.2) else findCycleList fuel H lookfor rest r.2

end

/-- One iteration of the cycle-breaking loop (lines 826-833): skip enums and
nodes that are not (any longer) struct-representable; otherwise run
`findCycle(typename, typename, new Set)` and demote the node on a hit. -/
def breakStep (fuel : Nat) (H : TypeHierarchy) (name : String) : Except Unit TypeHierarchy :=
  match lookupType H name with
  | none => .ok H
  | some d =>
    if d.isEnum then .ok H
    else if !d.representAsStruct then .ok H
    else do
      let r ← findCycle fuel H name name []
      if r.1 then .ok (setStruct H name false) else .ok H

/-- The cycle-breaking loop over a list of type names, threading the
hierarchy. -/
def breakCyclesAux (fuel : Nat) : List String → TypeHierarchy → Except Unit TypeHierarchy
  | [], H => .ok H
  | n :: rest, H => do
    breakCyclesAux fuel rest (← breakStep fuel H n)

/-- `for (let typename in typeHierarchy) { ... findCycle ... }`
(lines 826-833); the key set is fixed before the loop starts, which is
faithful because demoting a flag never changes the keys. -/
def breakCycles (fuel : Nat) (H : TypeHierarchy) : Except Unit TypeHierarchy :=
  breakCyclesAux fuel (H.map (·.1)) H

/-! ## Ancestor propagation (lines 837-852) -/

mutual

/-- `recursiveMakeNonStruct(typename)` (lines 837-844): clear the node's
flag, then recurse into every existing parent. No visited set, hence fuel. -/
def recursiveMakeNonStruct : Nat → TypeHierarchy → String → Except Unit TypeHierarchy
  | 0, _, _ => .error ()
  | fuel+1, H, t =>
    match lookupType H t with
    | none => .error ()
    | some d => recursiveMakeNonStructList fuel (setStruct H t false) d.extends_

/-- The `for (let _extend of ...extends)` loop of `recursiveMakeNonStruct`
(skipping parents that do not exist in the hierarchy). -/
def recursiveMakeNonStructList : Nat → TypeHierarchy → List String → Except Unit TypeHierarchy
  | 0, _, _ => .error ()
  | _+1, H, [] => .ok H
  | fuel+1, H, e :: rest =>
    match lookupType H e with
    | none => recursiveMakeNonStructList fuel H rest
    | some _ => do
      recursiveMakeNonStructList fuel (← recursiveMakeNonStruct fuel H e) rest

end

/-- The ancestor-propagation loop (lines 846-852): for every key, if the node
is currently neither an enum nor struct-representable, force all its
ancestors non-struct. -/
def propagateAux (fuel : Nat) : List String → TypeHierarchy → Except Unit TypeHierarchy
  | [], H => .ok H
  | n :: rest, H =>
    match lookupType H n with
    | none => propagateAux fuel rest H
    | some d =>
      if d.isEnum then propagateAux fuel rest H
      else if d.representAsStruct then propagateAux fuel rest H
      else do
        propagateAux fuel rest (← recursiveMakeNonStruct fuel H n)

/-- `for (let typename in typeHierarchy) { ... recursiveMakeNonStruct ... }`
(lines 846-852). -/
def propagate (fuel : Nat) (H : TypeHierarchy) : Except Unit TypeHierarchy :=
  propagateAux fuel (H.map (·.1)) H

/-! ## Topological sort (lines 856-875) -/

mutual

/-- `toposort(typename)` (lines 858-870): skip actions, enums and
struct-representable nodes; otherwise visit all existing parents, then append
the node to the order if not already present (`Set.add`). -/
def toposortNode : Nat → TypeHierarchy → String → List String → Except Unit (List String)
  | 0, _, _, _ => .error ()
  | fuel+1, H, t, order =>
    match lookupType H t with
    | none => .error ()
    | some d =>
      if d.isAction || d.isEnum || d.representAsStruct then .ok order
      else do
        let order1 ← toposortList fuel H d.extends_ order
        .ok (if t ∈ order1 then order1 else order1 ++ [t])

/-- The parents loop of `toposort` (skipping parents missing from the
hierarchy). -/
def toposortList : Nat → TypeHierarchy → List String → List String → Except Unit (List String)
  | 0, _, _, _ => .error ()
  | _+1, _, [], order => .ok order
  | fuel+1, H, e :: rest, order =>
    match lookupType H e with
    | none => toposortList fuel H rest order
    | some _ => do
      toposortList fuel H rest (← toposortNode fuel H e order)

end

/-- The driver loop at lines 871-875:
`for (let type in typeHierarchy) { if (order.has(type)) continue; toposort(type); }`. -/
def toposortAll (fuel : Nat) (H : TypeHierarchy) : List String → List String →
    Except Unit (List String)
  | [], order => .ok order
  | n :: rest, order =>
    if n ∈ order then toposortAll fuel H rest order
    else do
      toposortAll fuel H rest (← toposortNode fuel H n order)

/-- The full emission order computation (`const order = new Set; ...`). -/
def emissionOrder (fuel : Nat) (H : TypeHierarchy) : Except Unit (List String) :=
  toposortAll fuel H (H.map (·.1)) []

/-! ## Property-type resolution (`getBestPropertyType`, `typeToThingTalk`,
`makeCompoundType`, lines 422-583)

These three are mutually recursive through struct-valued properties. The
embedding builds them level by level over the fuel: level `fuel+1` of
`typeToThingTalk` uses level `fuel` of `makeCompoundType` and of itself, and
level `fuel+1` of `makeCompoundType` resolves its fields at level `fuel`.
With enough fuel this computes exactly what the JS does; running out of fuel
(`.error "fuel"`) models the stack overflow the JS would hit on a cyclic
struct graph. -/

/-- The score assigned to one candidate type (the branch cascade at lines
462-477). The JS branch `else if (typeHierarchy.isItemList) score = 0;`
reads `isItemList` off the hierarchy map object itself (not
`typeHierarchy[type]`), which is always `undefined`, so that branch is dead
and is omitted here. -/
def scoreOf (H : TypeHierarchy) (ty : String) : Int :=
  if (match lookupType H ty with | some d => d.isEnum | none => false) then 5
  else if ty == "Text" then 2
  else if isBuiltin ty then 4
  else if (lookupType H ty).isNone then -1
  else if (match lookupType H ty with | some d => d.representAsStruct | none => false) then 3
  else 1

/-- The best-candidate fold (lines 440, 462-483): strict improvement over the
running best, starting from `bestScore = -Infinity` (modelled by `none`, which
any first score beats). -/
def bestCand (H : TypeHierarchy) (types : List String) : Option (String × Int) :=
  types.foldl (fun acc ty =>
    let score := scoreOf H ty
    match acc with
    | none => some (ty, score)
    | some (b, bs) => if score > bs then some (ty, score) else some (b, bs)) none

/-- The `/^an? /i` test on the property comment (line 449). -/
def commentIndefArticle (s : String) : Bool :=
  let l := strToLower s
  strStartsWith l "a " || strStartsWith l "an "

/-- Case-insensitive substring test (the `/number/i`-style regexes at lines
498-500; the pattern constants are lowercase). -/
def containsInsens (s pat : String) : Bool :=
  containsList pat.toList (strToLower s).toList

mutual

/-- `recursiveCollectProperties(typename)` inside `makeCompoundType`
(lines 525-548): walk the node and its ancestors, inserting each property
only if its name was not collected yet (JS `Map` insertion order is
append-at-end). `st` is the captured `startingTypename`. -/
def recursiveCollectProperties : Nat → TypeHierarchy → String → String →
    List (String × PropertyDef) → Except Unit (List (String × PropertyDef))
  | 0, _, _, _, _ => .error ()
  | fuel+1, H, st, t, acc =>
    match lookupType H t with
    | none => .ok acc
    | some d =>
      if !STRUCT_INCLUDE_THING_PROPERTIES.contains st && !d.isStructSubType then .ok acc
      else
        let acc1 := d.properties.foldl
          (fun m p => if m.any (fun q => q.1 == p.1) then m else m ++ [p]) acc
        if !STRUCT_INCLUDE_THING_PROPERTIES.contains st && STRUCTURED_HIERARCHIES.contains t then
          .ok acc1
        else recursiveCollectPropertiesList fuel H st d.extends_ acc1

/-- The `for (let _extends of ...extends)` loop of
`recursiveCollectProperties`. -/
def recursiveCollectPropertiesList : Nat → TypeHierarchy → String → List String →
    List (String × PropertyDef) → Except Unit (List (String × PropertyDef))
  | 0, _, _, _, _ => .error ()
  | _+1, _, _, [], acc => .ok acc
  | fuel+1, H, st, e :: rest, acc => do
    recursiveCollectPropertiesList fuel H st rest (← recursiveCollectProperties fuel H st e acc)

end

/-- `getBestPropertyType(propname, property, typeHierarchy)` (lines 436-518),
parameterized over the `typeToThingTalk` level `t2` to use for the chosen
candidate. `px` is `this._prefix`. The JS line 508 `if (!tttype) return
[undefined, undefined]` is dead (`typeToThingTalk` always returns a type or
throws) and has no counterpart. -/
def gbptOf (t2 : String → String → TypeHierarchy → Except String TTType)
    (px pn : String) (prop : PropertyDef) (H : TypeHierarchy) :
    Except String (Option (String × TTType)) :=
  if BLACKLISTED_PROPERTIES.contains pn then .ok none
  else
    let isArray := prop.types.any (fun ty =>
      match lookupType H ty with | some d => d.isItemList | none => false)
    let isArray := if commentIndefArticle prop.comment then true else isArray
    let isArray := if PROPERTY_FORCE_ARRAY.contains pn then true else isArray
    let isArray := if PROPERTY_FORCE_NOT_ARRAY.contains pn then false else isArray
    match bestCand H prop.types with
    | none => .ok none
    | some (best, bestScore) =>
      if bestScore < 0 then .ok none
      else
        match lookupAssoc PROPERTY_TYPE_OVERRIDE pn with
        | some ov => .ok (some (best, ov))
        | none =>
          let isArray :=
            if (match lookupType H best with | some d => d.isItemList | none => false) then false
            else isArray
          if best == "QuantitativeValue" then
            if containsInsens pn "number" || containsInsens pn "level" ||
                containsInsens pn "quantity" then .ok (some (best, .number))
            else if containsInsens pn "duration" then .ok (some (best, .measure "ms"))
            else .ok (some (best, .number))
          else do
            let tttype ← t2 px best H
            let isArray := if tttype.isBooleanT || tttype.isEnumTT then false else isArray
            .ok (some (best, if isArray then .arrayT tttype else tttype))

/-- The field-building loop of `makeCompoundType` (lines 551-578), keeping the
field name and ThingTalk type of each surviving property (the canonical
phrases and annotations attached to each `Ast.ArgumentDef` do not influence
which fields exist or their types and are not modelled). `gb` is the
property resolver to use. -/
def mcFoldOf (gb : String → PropertyDef → TypeHierarchy → Except String (Option (String × TTType)))
    (st : String) (H : TypeHierarchy) :
    List (String × PropertyDef) → List (String × TTType) → Bool → Except String TTType
  | [], acc, anyfield =>
    if !anyfield then .error ("Struct type " ++ st ++ " has no fields")
    else .ok (.compound st acc)
  | p :: rest, acc, anyfield => do
    match ← gb p.1 p.2 H with
    | none => mcFoldOf gb st H rest acc anyfield
    | some (_, tt) => mcFoldOf gb st H rest (acc ++ [(p.1, tt)]) true

/-- `makeCompoundType(startingTypename, ...)` (lines 520-583) at one level:
collect all inherited properties, then resolve each one with the given
`typeToThingTalk` level, failing with the named error if no field survives. -/
def mctOf (t2 : String → String → TypeHierarchy → Except String TTType)
    (collectFuel : Nat) (px st : String) (H : TypeHierarchy) : Except String TTType :=
  match recursiveCollectProperties collectFuel H st st [] with
  | .error _ => .error "fuel"
  | .ok props => mcFoldOf (gbptOf t2 px) st H props [] false

/-- `typeToThingTalk(typename, ...)` (lines 422-434) at one level, recursing
through `t2prev` (item-list elements) and `mctprev` (struct compounds). A
missing node is a crash (`typeHierarchy[typename].isItemList` on
`undefined`). -/
def t2ttOf (t2prev mctprev : String → String → TypeHierarchy → Except String TTType)
    (px tn : String) (H : TypeHierarchy) : Except String TTType :=
  match lookupAssoc BUILTIN_TYPEMAP tn with
  | some t => .ok t
  | none =>
    match lookupType H tn with
    | none => .error ("TypeError: " ++ tn)
    | some d =>
      if d.isItemList then
        match d.itemType with
        | none => .error ("TypeError: " ++ tn)
        | some it => do .ok (.arrayT (← t2prev px it H))
      else if d.isEnum && decide (d.enumValues.length > 0) then .ok (.enumT d.enumValues)
      else if d.representAsStruct then mctprev px tn H
      else .ok (.entity (px ++ tn))

/-- The pair of mutually recursive resolvers at one fuel level. -/
structure Resolver where
  t2tt : String → String → TypeHierarchy → Except String TTType
  mct : String → String → TypeHierarchy → Except String TTType

/-- The fuel-indexed tower of resolvers (level 0 is out of fuel). -/
def resolverAt : Nat → Resolver
  | 0 => ⟨fun _ _ _ => .error "fuel", fun _ _ _ => .error "fuel"⟩
  | fuel+1 =>
    let prev := resolverAt fuel
    { t2tt := t2ttOf prev.t2tt prev.mct,
      mct := mctOf prev.t2tt (fuel+1) }

/-- `typeToThingTalk` with fuel. -/
def typeToThingTalk (fuel : Nat) (px tn : String) (H : TypeHierarchy) : Except String TTType :=
  (resolverAt fuel).t2tt px tn H

/-- `makeCompoundType` with fuel. -/
def makeCompoundType (fuel : Nat) (px st : String) (H : TypeHierarchy) : Except String TTType :=
  (resolverAt fuel).mct px st H

/-- `getBestPropertyType` with fuel (its chosen candidate is resolved by
`typeToThingTalk` at the same fuel). -/
def getBestPropertyType (fuel : Nat) (px pn : String) (prop : PropertyDef)
    (H : TypeHierarchy) : Except String (Option (String × TTType)) :=
  gbptOf (resolverAt fuel).t2tt px pn prop H

/-! ## Emission of queries (`run`, lines 877-960)

Only the emitted names and ThingTalk types are modelled: the natural-language
metadata, annotations and `string_values` attached to each argument do not
influence which arguments exist, their names, or their types. -/

/-- `if (KEYWORDS.includes(name)) name = '_' + name;` (lines 917-918 for
properties, 941-942 for query names). -/
def renameIfKeyword (n : String) : String :=
  if KEYWORDS.contains n then "_" ++ n else n

/-- The property loop of the emission (lines 911-939): resolve each property,
skip it if its type resolves to nothing, and emit it under its (possibly
keyword-renamed) name. -/
def emitArgsFold (fuel : Nat) (px : String) (H : TypeHierarchy) :
    List (String × PropertyDef) → List (String × TTType) →
    Except String (List (String × TTType))
  | [], acc => .ok acc
  | p :: rest, acc => do
    match ← getBestPropertyType fuel px p.1 p.2 H with
    | none => emitArgsFold fuel px H rest acc
    | some (_, tt) => emitArgsFold fuel px H rest (acc ++ [(renameIfKeyword p.1, tt)])

/-- The argument list emitted for one query (lines 885-939): the synthetic
`id` argument, the synthetic `name` argument for every type other than
`Thing`, then the resolved properties. -/
def emitArgs (fuel : Nat) (px tn : String) (d : TypeDef) (H : TypeHierarchy) :
    Except String (List (String × TTType)) := do
  let args0 := [("id", TTType.entity (px ++ tn))] ++
    (if tn == "Thing" then [] else [("name", TTType.string)])
  let props ← emitArgsFold fuel px H d.properties []
  .ok (args0 ++ props)

/-- The query-emission loop (lines 877-960): walk the emission order, skip
`ItemList` and its subclasses, and emit each query under its (possibly
keyword-renamed) name with its argument list. -/
def emitQueriesAux (fuel : Nat) (px : String) (H : TypeHierarchy) :
    List String → List (String × List (String × TTType)) →
    Except String (List (String × List (String × TTType)))
  | [], acc => .ok acc
  | tn :: rest, acc =>
    match lookupType H tn with
    | none => .error ("TypeError: " ++ tn)
    | some d =>
      if tn == "ItemList" || d.isItemList then emitQueriesAux fuel px H rest acc
      else do
        let args ← emitArgs fuel px tn d H
        emitQueriesAux fuel px H rest (acc ++ [(renameIfKeyword tn, args)])

/-- All emitted queries, in emission order. -/
def emitQueries (fuel : Nat) (px : String) (H : TypeHierarchy) (order : List String) :
    Except String (List (String × List (String × TTType))) :=
  emitQueriesAux fuel px H order []

/-! ## Canonical-phrase synthesis (`makeArgCanonical`, `addCanonical`,
lines 585-654)

The part-of-speech tagger is the external `en-pos` package; per the spec it is
a pluggable capability (`tag(tokens) -> tags`), so it is a parameter here.
-/

/-- A canonical record: grammatical-role key to list of phrase templates.
A JS object key that was never assigned is `none`. The source uses the keys
`base`, `verb`, `passive_verb`, `adjective`, `property` and
`reverse_property`. -/
structure CanonicalRecord where
  base : Option (List String) := none
  verb : Option (List String) := none
  passive_verb : Option (List String) := none
  adjective : Option (List String) := none
  property : Option (List String) := none
  reverse_property : Option (List String) := none
deriving Repr, DecidableEq

/-- Modelled from the spec: `clean` from the shared utils module (imported
from `../lib/utils`, not under `src/`) derives a phrase from an identifier by
"splitting the identifier into words (camel/punctuation boundaries),
lower-casing". -/
def clean (s : String) : String :=
  trimSpaces (String.mk (s.toList.foldl (fun acc c =>
    if c.isUpper then acc ++ [' ', c.toLower]
    else if c == '_' then acc ++ [' ']
    else acc ++ [c]) []))

/-- Modelled from the spec: `pluralize` from the shared utils module (not
under `src/`): "pluralize the final word of the candidate" (naive plural:
append an s to the final word, i.e. to the phrase). -/
def pluralize (s : String) : String := s ++ "s"

/-- The inner `cleanName` of `makeArgCanonical` (lines 586-591): clean, then
strip a trailing " value". -/
def cleanName (name : String) : String :=
  let name := clean name
  if strEndsWith name " value" then strDropRight name 6 else name

/-- The noun tags `['NN', 'NNS', 'NNP', 'NNPS']`. -/
def NOUN_TAGS : List String := ["NN", "NNS", "NNP", "NNPS"]

/-- `/^[a-z ]+$/.test(name)` (line 612). -/
def lowerAlphaSpace (name : String) : Bool :=
  decide (name.length > 0) && name.toList.all (fun ch => ch == ' ' || ('a' ≤ ch && ch ≤ 'z'))

/-- `name.replace(/ /g, '_')` -/
def underscored (s : String) : String :=
  strMapChars (fun c => if c == ' ' then '_' else c) s

/-- `name.replace(' ', ' # ')` (first space only, line 639). -/
def replaceFirstSpace (s : String) : String :=
  match splitSpace s with
  | [] => s
  | w :: rest => if rest.isEmpty then s else w ++ " # " ++ joinSpace rest

/-- `addCanonical(canonical, name, ptype)` (lines 609-654), with the
part-of-speech tagger as a parameter. -/
def addCanonical (tagger : List String → List String) (c : CanonicalRecord)
    (name0 : String) (ptype : TTType) : CanonicalRecord :=
  let name := strToLower name0
  if !lowerAlphaSpace name then c
  else
    let name := if ptype.isArray then pluralize name else name
    if strEndsWith name " content" && ptype.isMeasureT then
      let nm := strDropRight name 8
      { c with verb := some ((c.verb.getD []) ++ ["contains #" ++ underscored nm]),
               base := some ((c.base.getD []) ++ [nm ++ " content", nm, nm ++ " amount"]) }
    else if strStartsWith name "has " then
      let nm := strDrop name 4
      { c with base := some ((c.base.getD []) ++ [nm]) }
    else if strStartsWith name "is " then
      let nm := strDrop name 3
      let tags := tagger (splitSpace nm)
      if (match tags.getLast? with | some t => NOUN_TAGS.contains t | none => false)
          || strEndsWith nm " of" then
        { c with reverse_property := some ((c.reverse_property.getD []) ++ [nm]) }
      else if (match tags.head? with
               | some t => ["VBN", "JJ", "JJR"].contains t | none => false) then
        { c with passive_verb := some ((c.passive_verb.getD []) ++ [nm]) }
      else c
    else
      let tags := tagger (splitSpace name)
      if (match tags.head? with | some t => ["VBP", "VBZ", "VBD"].contains t | none => false) then
        if tags.length == 2 &&
            (match tags.get? 1 with | some t => NOUN_TAGS.contains t | none => false) then
          { c with verb := some ((c.verb.getD []) ++ [replaceFirstSpace name]),
                   base := some ((c.base.getD []) ++ [((splitSpace name).getD 1 "")]) }
        else { c with verb := some ((c.verb.getD []) ++ [name]) }
      else if strEndsWith name " of" then
        { c with reverse_property := some ((c.reverse_property.getD []) ++ [name]) }
      else if (match tags.head? with
               | some t => ["VBN", "VBG", "JJ", "JJR"].contains t | none => false) &&
          !(match tags.getLast? with | some t => NOUN_TAGS.contains t | none => false) then
        { c with passive_verb := some ((c.passive_verb.getD []) ++ [name]) }
      else
        { c with base := some ((c.base.getD []) ++ [name]) }

/-- `PROPERTY_CANONICAL_OVERRIDE` (lines 148-180) -/
def PROPERTY_CANONICAL_OVERRIDE : List (String × CanonicalRecord) := [
  ("url", { base := some ["url", "link"] }),
  ("name", { base := some ["name"], passive_verb := some ["called"] }),
  ("description", { base := some ["description", "summary"] }),
  ("geo", { base := some ["location", "address"],
            passive_verb := some ["in #", "around #", "at #", "on #"] }),
  ("streetAddress", { base := some ["street"] }),
  ("addressCountry", { passive_verb := some ["in #"], base := some ["country"] }),
  ("addressRegion", { passive_verb := some ["in #"], base := some ["state"] }),
  ("addressLocality", { base := some ["city"] })
]

/-- `MANUAL_PROPERTY_CANONICAL_OVERRIDE` (lines 182-325) -/
def MANUAL_PROPERTY_CANONICAL_OVERRIDE : List (String × CanonicalRecord) := [
  ("datePublished", { passive_verb := some ["published on #", "written on #"],
                      base := some ["date published"] }),
  ("ratingValue", { passive_verb := some ["rated # star"], base := some ["rating"] }),
  ("reviewRating", { base := some ["rating"] }),
  ("telephone", { base := some ["telephone", "phone number"] }),
  ("servesCuisine", { adjective := some ["#"],
                      verb := some ["serves # cuisine", "serves # food", "offer # cuisine",
                                    "offer # food", "serves", "offers"],
                      property := some ["# cuisine", "# food"],
                      base := some ["cuisine", "food type"] }),
  ("amenityFeature", { base := some ["amenity", "amenity feature"],
                       verb := some ["offers #", "offer #", "has #", "have #"] }),
  ("checkinTime", { base := some ["checkin time", "check in time", "check-in time"] }),
  ("checkoutTime", { base := some ["checkout time", "check out time", "check-out time"] }),
  ("alumniOf", { base := some ["college degrees", "universities", "alma maters"],
                 reverse_property := some ["alumni of #", "alumnus of #", "alumna of #",
                                           "# alumnus", "# alumni", "# grad", "# graduate"],
                 verb := some ["went to #", "graduated from #", "attended #", "studied at #"],
                 passive_verb := some ["educated at #", "graduated from #"] }),
  ("award", { base := some ["awards"],
              reverse_property := some ["winner of #", "recipient of #", "# winner",
                                        "# awardee", "# recipient", "# holder"],
              verb := some ["has the award #", "has received the # award",
                            "won the award for #", "won the # award", "received the # award",
                            "received the #", "won the #", "won #", "holds the award for #",
                            "holds the # award"] }),
  ("affiliation", { base := some ["affiliations"],
                    reverse_property := some ["member of #"],
                    passive_verb := some ["affiliated with #", "affiliated to #"] }),
  ("worksFor", { base := some ["employers"],
                 reverse_property := some ["employee of #", "# employee"],
                 verb := some ["works for #", "works at #", "worked at #", "worked for #"],
                 passive_verb := some ["employed at #", "employed by #"] }),
  ("author", { base := some ["author", "creator"],
               passive_verb := some ["by", "made by", "written by", "created by",
                                     "authored by", "uploaded by", "submitted by"] }),
  ("publisher", { base := some ["publisher"],
                  passive_verb := some ["by", "made by", "published by"] }),
  ("prepTime", { verb := some ["takes # to prepare", "needs # to prepare"],
                 base := some ["prep time", "preparation time", "time to prep",
                               "time to prepare"] }),
  ("cookTime", { verb := some ["takes # to cook", "needs # to cook"],
                 base := some ["cook time", "cooking time", "time to cook"] }),
  ("totalTime", { verb := some ["takes #", "requires #", "needs #", "uses #", "consumes #"],
                  base := some ["total time", "time in total", "time to make"] }),
  ("recipeYield", { verb := some ["yields #", "feeds #", "produces #", "results in #",
                                  "is good for #"],
                    passive_verb := some ["yielding #"],
                    base := some ["yield amount", "yield size"] }),
  ("recipeCategory", { base := some ["categories"] }),
  ("recipeIngredient", { verb := some ["contains", "uses", "has"],
                         passive_verb := some ["containing", "using"],
                         base := some ["ingredients"] }),
  ("recipeInstructions", { base := some ["instructions"] }),
  ("recipeCuisines", { adjective := some ["#"],
                       verb := some ["belongs to the # cuisine"],
                       base := some ["cuisines", "cuisine"] }),
  ("reviewBody", { base := some ["body", "text", "content"] }),
  ("saturatedFatContent", { base := some ["saturated fat content", "saturated fat amount",
                                          "saturated fat", "trans fat"] }),
  ("mpn", { base := some ["manufacturer part number"] })
]

/-- `[...new Set(candidates)]` (line 601): deduplicate keeping first
occurrences. -/
def dedupKeepFirst (seen : List String) : List String → List String
  | [] => []
  | x :: xs => if x ∈ seen then dedupKeepFirst seen xs else x :: dedupKeepFirst (x :: seen) xs

/-- The candidate phrases of a property (line 600): the wikidata labels if
present, else the cleaned identifier; deduplicated. -/
def canonicalCandidates (wlabels : List (String × List String)) (name : String) : List String :=
  dedupKeepFirst [] (match lookupAssoc wlabels name with
    | some ls => ls
    | none => [cleanName name])

/-- The candidate-processing fold of `makeArgCanonical` (lines 598-602). -/
def processCandidates (tagger : List String → List String)
    (wlabels : List (String × List String)) (name : String) (ptype : TTType) : CanonicalRecord :=
  (canonicalCandidates wlabels name).foldl
    (fun c cand => addCanonical tagger c cand ptype) {}

/-- `makeArgCanonical(name, ptype)` (lines 585-607). `manual` is
`this._manual`, `always` is `this._always_base_canonical`, `wlabels` is
`this._wikidata_labels`. -/
def makeArgCanonical (tagger : List String → List String) (manual always : Bool)
    (wlabels : List (String × List String)) (name : String) (ptype : TTType) :
    CanonicalRecord :=
  match lookupAssoc PROPERTY_CANONICAL_OVERRIDE name with
  | some r => r
  | none =>
    match (if manual then lookupAssoc MANUAL_PROPERTY_CANONICAL_OVERRIDE name else none) with
    | some r => r
    | none =>
      let c := processCandidates tagger wlabels name ptype
      if c.base.isNone && always then { c with base := some [name] } else c

/-! ## Graph relations used by the claims -/

/-- The resolved struct property edge of the cycle detector: `u`'s node
exists, some property of `u` has candidate type `v`, and `v` is a non-builtin
node that is currently struct-representable (exactly the types `findCycle`
recurses into from `u`). -/
def structEdgeB (H : TypeHierarchy) (u v : String) : Bool :=
  match lookupType H u, lookupType H v with
  | some du, some dv =>
    dv.representAsStruct && !isBuiltin v && decide (v ∈ propTargets du)
  | _, _ => false

/-- `v` is reachable from `u` by a non-empty chain of struct property
edges. -/
def Reaches (H : TypeHierarchy) (u v : String) : Prop :=
  Relation.TransGen (fun a b => structEdgeB H a b = true) u v

/-- The parent edge of ancestor propagation: `v` is listed in `u.extends`
and exists in the hierarchy (the propagation skips missing parents). -/
def parentEdgeB (H : TypeHierarchy) (u v : String) : Bool :=
  match lookupType H u with
  | some d => decide (v ∈ d.extends_) && (lookupType H v).isSome
  | none => false

/-- `v` is an ancestor of `u`: reachable by a non-empty chain of parent
edges. -/
def ParentReach (H : TypeHierarchy) (u v : String) : Prop :=
  Relation.TransGen (fun a b => parentEdgeB H a b = true) u v

/-! ## Basic lemmas about lookups and `setStruct` -/

theorem lookup_some_mem_keys {H : TypeHierarchy} {t : String} {d : TypeDef}
    (h : lookupType H t = some d) : t ∈ H.map (·.1) := by
  unfold lookupType at h
  cases hf : H.find? (·.1 == t) with
  | none => rw [hf] at h; simp at h
  | some p =>
    rw [hf] at h
    have hmem := List.mem_of_find?_eq_some hf
    have hpred := List.find?_some hf
    simp at hpred
    subst hpred
    exact List.mem_map.mpr ⟨p, hmem, rfl⟩

theorem lookup_setStruct (H : TypeHierarchy) (n t : String) (b : Bool) :
    lookupType (setStruct H n b) t =
      (lookupType H t).map
        (fun d => if t == n then { d with representAsStruct := b } else d) := by
  unfold lookupType setStruct
  rw [List.find?_map]
  have hcomp : ((fun p => p.1 == t) ∘ fun (p : String × TypeDef) =>
      if p.1 == n then (p.1, { p.2 with representAsStruct := b }) else p) =
      (fun p => p.1 == t) := by
    funext p; by_cases hp : p.1 = n <;> simp [hp]
  rw [hcomp]
  cases hf : H.find? (fun p => p.1 == t) with
  | none => rfl
  | some p =>
    have hpred := List.find?_some hf
    simp only [beq_iff_eq] at hpred
    subst hpred
    by_cases hp : p.1 = n <;> simp [hp]

theorem lookup_setStruct_ne {H : TypeHierarchy} {n t : String} {b : Bool} (h : t ≠ n) :
    lookupType (setStruct H n b) t = lookupType H t := by
  rw [lookup_setStruct]
  cases lookupType H t with
  | none => rfl
  | some d => simp [h]

theorem lookup_setStruct_self {H : TypeHierarchy} {n : String} {b : Bool} :
    lookupType (setStruct H n b) n =
      (lookupType H n).map (fun d => { d with representAsStruct := b }) := by
  rw [lookup_setStruct]
  cases lookupType H n with
  | none => rfl
  | some d => simp

/-- Rewriting the struct flag to the value it already has is the
identity. -/
theorem setFlagEq {d : TypeDef} (h : d.representAsStruct = false) :
    { d with representAsStruct := false } = d := by
  cases d; simp_all

/-! ## Flag evolution: the classification loops only clear struct flags -/

/-- `H'` is `H` with some struct flags cleared: every node is unchanged or
has only its `representAsStruct` flag turned off, and no node appears or
disappears. -/
def FlagEvolves (H H' : TypeHierarchy) : Prop :=
  ∀ t, (lookupType H t = none ∧ lookupType H' t = none) ∨
    (∃ d, lookupType H t = some d ∧
      (lookupType H' t = some d ∨
       lookupType H' t = some { d with representAsStruct := false }))

theorem flagEvolves_refl (H : TypeHierarchy) : FlagEvolves H H := by
  intro t
  cases h : lookupType H t with
  | none => exact Or.inl ⟨rfl, rfl⟩
  | some d => exact Or.inr ⟨d, rfl, Or.inl rfl⟩

theorem flagEvolves_trans {H1 H2 H3 : TypeHierarchy}
    (h12 : FlagEvolves H1 H2) (h23 : FlagEvolves H2 H3) : FlagEvolves H1 H3 := by
  intro t
  rcases h12 t with ⟨e1, e2⟩ | ⟨d, hd, hcase⟩
  · rcases h23 t with ⟨f1, f2⟩ | ⟨d, hd, _⟩
    · exact Or.inl ⟨e1, f2⟩
    · rw [e2] at hd; cases hd
  · rcases hcase with h2 | h2
    · rcases h23 t with ⟨f1, _⟩ | ⟨d', hd', hcase'⟩
      · rw [h2] at f1; cases f1
      · rw [h2] at hd'
        cases hd'
        exact Or.inr ⟨d, hd, hcase'⟩
    · rcases h23 t with ⟨f1, _⟩ | ⟨d', hd', hcase'⟩
      · rw [h2] at f1; cases f1
      · rw [h2] at hd'
        cases hd'
        refine Or.inr ⟨d, hd, ?_⟩
        rcases hcase' with h3 | h3
        · exact Or.inr h3
        · exact Or.inr (by simpa using h3)

theorem setStruct_evolves (H : TypeHierarchy) (n : String) :
    FlagEvolves H (setStruct H n false) := by
  intro t
  by_cases ht : t = n
  · subst ht
    cases h : lookupType H t with
    | none => exact Or.inl ⟨rfl, by rw [lookup_setStruct_self, h]; rfl⟩
    | some d =>
      exact Or.inr ⟨d, rfl, Or.inr (by rw [lookup_setStruct_self, h]; rfl)⟩
  · cases h : lookupType H t with
    | none => exact Or.inl ⟨rfl, by rw [lookup_setStruct_ne ht]; exact h⟩
    | some d => exact Or.inr ⟨d, rfl, Or.inl (by rw [lookup_setStruct_ne ht]; exact h)⟩

/-- A node whose struct flag is still on after an evolution had the very same
record before it. -/
theorem flagEvolves_struct_back {H H' : TypeHierarchy} {t : String} {d : TypeDef}
    (he : FlagEvolves H H') (h : lookupType H' t = some d)
    (hs : d.representAsStruct = true) : lookupType H t = some d := by
  rcases he t with ⟨_, e2⟩ | ⟨d0, hd0, hcase⟩
  · rw [e2] at h; cases h
  · rcases hcase with h2 | h2
    · rw [h2] at h; cases h; exact hd0
    · rw [h2] at h
      cases h
      simp at hs

/-- A cleared struct flag stays cleared (with the identical record). -/
theorem flagEvolves_false_forward {H H' : TypeHierarchy} {t : String} {d : TypeDef}
    (he : FlagEvolves H H') (h : lookupType H t = some d)
    (hs : d.representAsStruct = false) : lookupType H' t = some d := by
  rcases he t with ⟨e1, _⟩ | ⟨d0, hd0, hcase⟩
  · rw [e1] at h; cases h
  · rw [hd0] at h
    cases h
    rcases hcase with h2 | h2
    · exact h2
    · rw [setFlagEq hs] at h2; exact h2

/-- Struct edges only disappear under flag evolution. -/
theorem structEdgeB_anti {H H' : TypeHierarchy} {u v : String}
    (he : FlagEvolves H H') (h : structEdgeB H' u v = true) : structEdgeB H u v = true := by
  unfold structEdgeB at h ⊢
  cases hu' : lookupType H' u with
  | none => rw [hu'] at h; simp at h
  | some du' =>
    cases hv' : lookupType H' v with
    | none => rw [hu', hv'] at h; simp at h
    | some dv' =>
      rw [hu', hv'] at h
      simp only [Bool.and_eq_true, decide_eq_true_eq] at h
      obtain ⟨⟨hsv, hnb⟩, hmem⟩ := h
      have hv : lookupType H v = some dv' := flagEvolves_struct_back he hv' hsv
      rcases he u with ⟨_, e2⟩ | ⟨du, hdu, hcase⟩
      · rw [e2] at hu'; cases hu'
      · have hprops : du'.properties = du.properties := by
          rcases hcase with h2 | h2 <;> (rw [h2] at hu'; cases hu') <;> rfl
        rw [hdu, hv]
        simp only [Bool.and_eq_true, decide_eq_true_eq]
        refine ⟨⟨hsv, hnb⟩, ?_⟩
        unfold propTargets at hmem ⊢
        rw [← hprops]
        exact hmem

/-- Reachability only shrinks under flag evolution. -/
theorem reaches_anti {H H' : TypeHierarchy} {u v : String}
    (he : FlagEvolves H H') (h : Reaches H' u v) : Reaches H u v := by
  unfold Reaches at h ⊢
  induction h with
  | single hstep => exact Relation.TransGen.single (structEdgeB_anti he hstep)
  | tail _ hstep ih => exact Relation.TransGen.tail ih (structEdgeB_anti he hstep)

/-! ## Correctness of `findCycle` -/

theorem except_bind_ok {ε α β : Type} {e : Except ε α} {f : α → Except ε β} {b : β}
    (h : (e >>= f) = .ok b) : ∃ a, e = .ok a ∧ f a = .ok b := by
  cases e with
  | error err => simp [Bind.bind, Except.bind] at h
  | ok a => exact ⟨a, rfl, by simpa [Bind.bind, Except.bind] using h⟩

theorem mem_structTargets {H : TypeHierarchy} {d : TypeDef} {v : String} :
    v ∈ structTargets H d ↔
      v ∈ propTargets d ∧ isBuiltin v = false ∧
        ∃ dv, lookupType H v = some dv ∧ dv.representAsStruct = true := by
  unfold structTargets
  rw [List.mem_filter]
  constructor
  · rintro ⟨hmem, hcond⟩
    simp only [Bool.and_eq_true, Bool.not_eq_true'] at hcond
    obtain ⟨hnb, hmatch⟩ := hcond
    cases hl : lookupType H v with
    | none => rw [hl] at hmatch; simp at hmatch
    | some dv => rw [hl] at hmatch; exact ⟨hmem, hnb, dv, rfl, hmatch⟩
  · rintro ⟨hmem, hnb, dv, hdv, hs⟩
    refine ⟨hmem, ?_⟩
    simp only [Bool.and_eq_true, Bool.not_eq_true']
    exact ⟨hnb, by rw [hdv]; exact hs⟩

theorem structEdgeB_iff_target {H : TypeHierarchy} {u v : String} {du : TypeDef}
    (hu : lookupType H u = some du) :
    structEdgeB H u v = true ↔ v ∈ structTargets H du := by
  rw [mem_structTargets]
  unfold structEdgeB
  rw [hu]
  cases hv : lookupType H v with
  | none =>
    constructor
    · intro h; exact absurd h (by simp)
    · rintro ⟨_, _, dv, hdv, _⟩; simp at hdv
  | some dv =>
    constructor
    · intro h
      simp only [Bool.and_eq_true, Bool.not_eq_true', decide_eq_true_eq] at h
      exact ⟨h.2, h.1.2, dv, rfl, h.1.1⟩
    · rintro ⟨hmem, hnb, dv', hdv', hs⟩
      cases hdv'
      simp only [Bool.and_eq_true, Bool.not_eq_true', decide_eq_true_eq]
      exact ⟨⟨hs, hnb⟩, hmem⟩

/-- The visited set only grows (both `findCycle` and its list loop). -/
theorem findCycle_mono_all : ∀ fuel : Nat,
    (∀ H lf t V b V', findCycle fuel H lf t V = .ok (b, V') → V ⊆ V') ∧
    (∀ H lf ts V b V', findCycleList fuel H lf ts V = .ok (b, V') → V ⊆ V') := by
  intro fuel
  induction fuel with
  | zero =>
    constructor <;> intro H lf t V b V' h <;> simp [findCycle, findCycleList] at h
  | succ fuel ih =>
    obtain ⟨ihc, ihl⟩ := ih
    constructor
    · intro H lf t V b V' h
      rw [findCycle] at h
      by_cases hv : t ∈ V
      · rw [if_pos hv] at h
        cases h
        exact fun a ha => ha
      · rw [if_neg hv] at h
        cases hl : lookupType H t with
        | none => rw [hl] at h; cases h
        | some d =>
          rw [hl] at h
          have hsub := ihl H lf (structTargets H d) (t :: V) b V' h
          exact fun a ha => hsub (List.mem_cons_of_mem _ ha)
    · intro H lf ts V b V' h
      match ts with
      | [] =>
        rw [findCycleList] at h
        cases h
        exact fun a ha => ha
      | v :: rest =>
        rw [findCycleList] at h
        obtain ⟨r, hr, hrest⟩ := except_bind_ok h
        have h1 := ihc H lf v V r.1 r.2 (by rw [hr])
        by_cases hb : r.1 = true
        · rw [if_pos hb] at hrest
          cases hrest
          exact h1
        · rw [if_neg hb] at hrest
          have h2 := ihl H lf rest r.2 b V' hrest
          exact fun a ha => h2 (h1 ha)

theorem findCycle_mono {fuel H lf t V b V'}
    (h : findCycle fuel H lf t V = .ok (b, V')) : V ⊆ V' :=
  (findCycle_mono_all fuel).1 H lf t V b V' h

theorem findCycleList_mono {fuel H lf ts V b V'}
    (h : findCycleList fuel H lf ts V = .ok (b, V')) : V ⊆ V' :=
  (findCycle_mono_all fuel).2 H lf ts V b V' h

/-- If the search reports a hit, a real cycle (chain of struct edges to the
node being looked for) exists. -/
theorem findCycle_sound_all : ∀ fuel : Nat,
    (∀ H lf t V V', findCycle fuel H lf t V = .ok (true, V') →
      (t ∈ V ∧ t = lf) ∨ Relation.TransGen (fun a b => structEdgeB H a b = true) t lf) ∧
    (∀ H lf ts V V', findCycleList fuel H lf ts V = .ok (true, V') →
      ∃ v ∈ ts, v = lf ∨ Relation.TransGen (fun a b => structEdgeB H a b = true) v lf) := by
  intro fuel
  induction fuel with
  | zero =>
    constructor <;> intro H lf t V V' h <;> simp [findCycle, findCycleList] at h
  | succ fuel ih =>
    obtain ⟨ihc, ihl⟩ := ih
    constructor
    · intro H lf t V V' h
      rw [findCycle] at h
      by_cases hv : t ∈ V
      · rw [if_pos hv] at h
        simp only [Except.ok.injEq, Prod.mk.injEq] at h
        exact Or.inl ⟨hv, by simpa using h.1⟩
      · rw [if_neg hv] at h
        cases hl : lookupType H t with
        | none => rw [hl] at h; cases h
        | some d =>
          rw [hl] at h
          obtain ⟨v, hvmem, hcase⟩ := ihl H lf (structTargets H d) (t :: V) V' h
          have hedge : structEdgeB H t v = true := (structEdgeB_iff_target hl).mpr hvmem
          rcases hcase with rfl | htrans
          · exact Or.inr (Relation.TransGen.single hedge)
          · exact Or.inr (Relation.TransGen.head hedge htrans)
    · intro H lf ts V V' h
      match ts with
      | [] => rw [findCycleList] at h; cases h
      | v :: rest =>
        rw [findCycleList] at h
        obtain ⟨r, hr, hrest⟩ := except_bind_ok h
        by_cases hb : r.1 = true
        · rw [if_pos hb] at hrest
          have hr' : findCycle fuel H lf v V = .ok (true, r.2) := by
            rw [hr]; cases r; simp_all
          rcases ihc H lf v V r.2 hr' with ⟨_, rfl⟩ | htrans
          · exact ⟨v, List.mem_cons_self v rest, Or.inl rfl⟩
          · exact ⟨v, List.mem_cons_self v rest, Or.inr htrans⟩
        · rw [if_neg hb] at hrest
          obtain ⟨v', hv'mem, hcase⟩ := ihl H lf rest r.2 V' hrest
          exact ⟨v', List.mem_cons_of_mem _ hv'mem, hcase⟩

/-- The closure property of a completed (miss) search: every node first
visited during the search has all its struct edges leading into the visited
set and never to the node looked for. -/
def fcClosed (H : TypeHierarchy) (lf : String) (V V' : List String) : Prop :=
  ∀ w ∈ V', w ∉ V → ∀ v, structEdgeB H w v = true → v ∈ V' ∧ v ≠ lf

/-- If the search reports a miss, the visited set is closed under struct
edges away from `lf`. -/
theorem findCycle_closed_all : ∀ fuel : Nat,
    (∀ H lf t V V', findCycle fuel H lf t V = .ok (false, V') → lf ∈ V →
      t ∈ V' ∧ t ≠ lf ∧ V ⊆ V' ∧ fcClosed H lf V V') ∧
    (∀ H lf ts V V', findCycleList fuel H lf ts V = .ok (false, V') → lf ∈ V →
      V ⊆ V' ∧ (∀ v ∈ ts, v ∈ V' ∧ v ≠ lf) ∧ fcClosed H lf V V') := by
  intro fuel
  induction fuel with
  | zero =>
    constructor <;> intro H lf t V V' h <;> simp [findCycle, findCycleList] at h
  | succ fuel ih =>
    obtain ⟨ihc, ihl⟩ := ih
    constructor
    · intro H lf t V V' h hlf
      rw [findCycle] at h
      by_cases hv : t ∈ V
      · rw [if_pos hv] at h
        simp only [Except.ok.injEq, Prod.mk.injEq] at h
        obtain ⟨hne, rfl⟩ := h
        refine ⟨hv, by simpa using hne, fun a ha => ha, ?_⟩
        intro w hw hnw
        exact absurd hw hnw
      · rw [if_neg hv] at h
        cases hl : lookupType H t with
        | none => rw [hl] at h; cases h
        | some d =>
          rw [hl] at h
          obtain ⟨hsub, htargets, hclosed⟩ :=
            ihl H lf (structTargets H d) (t :: V) V' h (List.mem_cons_of_mem _ hlf)
          have htV' : t ∈ V' := hsub (List.mem_cons_self t V)
          have htne : t ≠ lf := fun hh => hv (hh ▸ hlf)
          refine ⟨htV', htne, fun a ha => hsub (List.mem_cons_of_mem _ ha), ?_⟩
          intro w hw hnw v hedge
          by_cases hwt : w = t
          · subst hwt
            exact htargets v ((structEdgeB_iff_target hl).mp hedge)
          · have hw' : w ∉ t :: V := by
              intro hh
              rcases List.mem_cons.mp hh with hh | hh
              · exact hwt hh
              · exact hnw hh
            exact hclosed w hw hw' v hedge
    · intro H lf ts V V' h hlf
      match ts with
      | [] =>
        rw [findCycleList] at h
        cases h
        refine ⟨fun a ha => ha, by simp, ?_⟩
        intro w hw hnw
        exact absurd hw hnw
      | v :: rest =>
        rw [findCycleList] at h
        obtain ⟨r, hr, hrest⟩ := except_bind_ok h
        by_cases hb : r.1 = true
        · rw [if_pos hb] at hrest; cases hrest
        · rw [if_neg hb] at hrest
          have hr' : findCycle fuel H lf v V = .ok (false, r.2) := by
            rw [hr]; cases r; simp_all
          obtain ⟨hvr, hvne, hVr, hclosed1⟩ := ihc H lf v V r.2 hr' hlf
          obtain ⟨hrV', hrest', hclosed2⟩ := ihl H lf rest r.2 V' hrest (hVr hlf)
          refine ⟨fun a ha => hrV' (hVr ha), ?_, ?_⟩
          · intro v' hv'
            rcases List.mem_cons.mp hv' with rfl | hv'
            · exact ⟨hrV' hvr, hvne⟩
            · exact hrest' v' hv'
          · intro w hw hnw v'' hedge
            by_cases hwr : w ∈ r.2
            · obtain ⟨h1, h2⟩ := hclosed1 w hwr hnw v'' hedge
              exact ⟨hrV' h1, h2⟩
            · exact hclosed2 w hw hwr v'' hedge

/-- If `findCycle(t, t, new Set)` misses, `t` lies on no struct-edge
cycle. -/
theorem findCycle_false_no_cycle {fuel : Nat} {H : TypeHierarchy} {t : String}
    {V' : List String} (h : findCycle fuel H t t [] = .ok (false, V')) :
    ¬ Reaches H t t := by
  intro hreach
  cases fuel with
  | zero => simp [findCycle] at h
  | succ fuel =>
    rw [findCycle] at h
    rw [if_neg (List.not_mem_nil t)] at h
    cases hl : lookupType H t with
    | none => rw [hl] at h; cases h
    | some d =>
      rw [hl] at h
      obtain ⟨hsub, htargets, hclosed⟩ :=
        (findCycle_closed_all fuel).2 H t (structTargets H d) [t] V' h (by simp)
      have key : ∀ y, Relation.TransGen (fun a b => structEdgeB H a b = true) t y →
          y ∈ V' ∧ y ≠ t := by
        intro y hy
        induction hy with
        | single hstep => exact htargets _ ((structEdgeB_iff_target hl).mp hstep)
        | tail hy hstep ih =>
          obtain ⟨hyV, hyne⟩ := ih
          refine hclosed _ hyV ?_ _ hstep
          simp [hyne]
      exact (key t hreach).2 rfl

/-! ## The cycle-breaking loop -/

theorem breakStep_evolves {fuel : Nat} {H H1 : TypeHierarchy} {n : String}
    (h : breakStep fuel H n = .ok H1) : FlagEvolves H H1 := by
  unfold breakStep at h
  split at h
  · cases h; exact flagEvolves_refl _
  · split at h
    · cases h; exact flagEvolves_refl _
    · split at h
      · cases h; exact flagEvolves_refl _
      · obtain ⟨r, _, hr⟩ := except_bind_ok h
        split at hr
        · cases hr; exact setStruct_evolves _ _
        · cases hr; exact flagEvolves_refl _

theorem breakStep_preserves_ne {fuel : Nat} {H H1 : TypeHierarchy} {n t : String}
    (h : breakStep fuel H n = .ok H1) (hne : t ≠ n) :
    lookupType H1 t = lookupType H t := by
  unfold breakStep at h
  split at h
  · cases h; rfl
  · split at h
    · cases h; rfl
    · split at h
      · cases h; rfl
      · obtain ⟨r, _, hr⟩ := except_bind_ok h
        split at hr
        · cases hr; exact lookup_setStruct_ne hne
        · cases hr; rfl

/-- Case analysis of one loop iteration on a node that is actually
checked (struct-representable, not an enum). -/
theorem breakStep_cases {fuel : Nat} {H H1 : TypeHierarchy} {n : String} {d : TypeDef}
    (hl : lookupType H n = some d) (he : d.isEnum = false) (hs : d.representAsStruct = true)
    (h : breakStep fuel H n = .ok H1) :
    (∃ V', findCycle fuel H n n [] = .ok (true, V') ∧ H1 = setStruct H n false) ∨
    (∃ V', findCycle fuel H n n [] = .ok (false, V') ∧ H1 = H) := by
  unfold breakStep at h
  split at h
  · next heq => rw [hl] at heq; cases heq
  · next d' heq =>
    rw [hl] at heq
    cases heq
    split at h
    · next henum' => simp [he] at henum'
    · split at h
      · next hns => simp [hs] at hns
      · obtain ⟨r, hr, hres⟩ := except_bind_ok h
        split at hres
        · next hb =>
          cases hres
          exact Or.inl ⟨r.2, by rw [hr]; cases r; simp_all, rfl⟩
        · next hb =>
          cases hres
          exact Or.inr ⟨r.2, by rw [hr]; cases r; simp_all, rfl⟩

theorem breakCyclesAux_evolves {fuel : Nat} :
    ∀ {names : List String} {H H' : TypeHierarchy},
    breakCyclesAux fuel names H = .ok H' → FlagEvolves H H' := by
  intro names
  induction names with
  | nil =>
    intro H H' h
    rw [breakCyclesAux] at h
    cases h
    exact flagEvolves_refl _
  | cons n rest ih =>
    intro H H' h
    rw [breakCyclesAux] at h
    obtain ⟨H1, h1, h2⟩ := except_bind_ok h
    exact flagEvolves_trans (breakStep_evolves h1) (ih h2)

theorem breakCyclesAux_append {fuel : Nat} {xs ys : List String} {H H' : TypeHierarchy}
    (h : breakCyclesAux fuel (xs ++ ys) H = .ok H') :
    ∃ Hm, breakCyclesAux fuel xs H = .ok Hm ∧ breakCyclesAux fuel ys Hm = .ok H' := by
  induction xs generalizing H with
  | nil => exact ⟨H, rfl, h⟩
  | cons n xs ih =>
    rw [List.cons_append, breakCyclesAux] at h
    obtain ⟨H1, h1, h2⟩ := except_bind_ok h
    obtain ⟨Hm, hm1, hm2⟩ := ih h2
    refine ⟨Hm, ?_, hm2⟩
    rw [breakCyclesAux, h1]
    simpa [Bind.bind, Except.bind] using hm1

theorem breakCyclesAux_preserves_absent {fuel : Nat} {names : List String}
    {H H' : TypeHierarchy} {t : String}
    (habs : ∀ n ∈ names, t ≠ n) (h : breakCyclesAux fuel names H = .ok H') :
    lookupType H' t = lookupType H t := by
  induction names generalizing H with
  | nil => rw [breakCyclesAux] at h; cases h; rfl
  | cons n rest ih =>
    rw [breakCyclesAux] at h
    obtain ⟨H1, h1, h2⟩ := except_bind_ok h
    rw [ih (fun m hm => habs m (List.mem_cons_of_mem _ hm)) h2]
    exact breakStep_preserves_ne h1 (habs n (List.mem_cons_self n rest))

/-- Core induction for acyclicity: every processed node that survives with
its struct flag on has no cycle in the final hierarchy. -/
theorem breakCyclesAux_acyclic {fuel : Nat} :
    ∀ {names : List String} {H H' : TypeHierarchy},
    breakCyclesAux fuel names H = .ok H' →
    ∀ t d, t ∈ names → lookupType H' t = some d → d.isEnum = false →
      d.representAsStruct = true → ¬ Reaches H' t t := by
  intro names
  induction names with
  | nil => intro H H' _ t d htmem; cases htmem
  | cons n rest ih =>
    intro H H' h t d htmem hld henum hstruct
    rw [breakCyclesAux] at h
    obtain ⟨H1, h1, h2⟩ := except_bind_ok h
    by_cases htr : t ∈ rest
    · exact ih h2 t d htr hld henum hstruct
    · have htn : t = n := by
        rcases List.mem_cons.mp htmem with h' | h'
        · exact h'
        · exact absurd h' htr
      subst htn
      -- the final record of t is still intact in H1 (struct flag on)
      have hH1 : lookupType H1 t = some d :=
        flagEvolves_struct_back (breakCyclesAux_evolves h2) hld hstruct
      have hev1 := breakStep_evolves h1
      rcases hev1 t with ⟨_, hn2⟩ | ⟨d0, hl, hcase⟩
      · rw [hH1] at hn2; cases hn2
      · have hd0 : d0 = d := by
          rcases hcase with hc | hc
          · rw [hH1] at hc; cases hc; rfl
          · rw [hH1] at hc
            cases hc
            simp at hstruct
        subst hd0
        rcases breakStep_cases hl henum hstruct h1 with ⟨V', _, rfl⟩ | ⟨V', hfc, rfl⟩
        · -- t was demoted: its struct flag cannot be on in H'
          rw [lookup_setStruct_self, hl] at hH1
          have heq : ({ d0 with representAsStruct := false } : TypeDef) = d0 := by
            simpa using hH1
          have hfalse : d0.representAsStruct = false := by rw [← heq]
          simp [hfalse] at hstruct
        · -- findCycle missed: no cycle at t's turn, hence none in H'
          have hnoc := findCycle_false_no_cycle hfc
          exact fun hr => hnoc (reaches_anti (breakCyclesAux_evolves h2) hr)

theorem nodup_decompose {l1 l2 l3 : List String} {A B : String}
    (h : (l1 ++ A :: (l2 ++ B :: l3)).Nodup) :
    A ∉ l1 ∧ A ∉ l2 ∧ A ∉ l3 ∧ B ∉ l1 ∧ B ∉ l2 ∧ B ∉ l3 ∧ A ≠ B := by
  rw [List.nodup_append] at h
  obtain ⟨_, hcons, hd1⟩ := h
  rw [List.nodup_cons] at hcons
  obtain ⟨hAnot, happ⟩ := hcons
  rw [List.mem_append, List.mem_cons] at hAnot
  push_neg at hAnot
  have hAl2 : A ∉ l2 := hAnot.1
  have hABne : A ≠ B := hAnot.2.1
  have hAl3 : A ∉ l3 := hAnot.2.2
  rw [List.nodup_append] at happ
  obtain ⟨_, hBcons, hd2⟩ := happ
  rw [List.nodup_cons] at hBcons
  have hBl2 : B ∉ l2 := fun hm => (hd2 hm) (List.mem_cons_self B l3)
  have hAl1 : A ∉ l1 := fun hm => (hd1 hm) (List.mem_cons_self A _)
  have hBl1 : B ∉ l1 := fun hm =>
    (hd1 hm) (List.mem_cons_of_mem _ (List.mem_append.mpr (Or.inr (List.mem_cons_self B l3))))
  exact ⟨hAl1, hAl2, hAl3, hBl1, hBl2, hBcons.1, hABne⟩

/-- `structEdgeB` only looks at the two endpoint records. -/
theorem structEdgeB_congr {H1 H2 : TypeHierarchy} {u v : String}
    (hu : lookupType H1 u = lookupType H2 u) (hv : lookupType H1 v = lookupType H2 v) :
    structEdgeB H1 u v = structEdgeB H2 u v := by
  unfold structEdgeB
  rw [hu, hv]

theorem transGen_first_edge {α : Type} {r : α → α → Prop} {a b : α}
    (h : Relation.TransGen r a b) : ∃ c, r a c := by
  induction h with
  | single h => exact ⟨_, h⟩
  | tail _ _ ih => exact ih

/-- C2 (amended): in a mutual struct-reference pair, the cycle-breaking loop
demotes the node visited *earlier* in traversal order (A, whose key precedes
B's); B survives untouched provided its only struct edge goes to A. -/
theorem breakCycles_pair_demotes_earlier
    (fuel : Nat) (H H' : TypeHierarchy) (A B : String) (dA dB : TypeDef)
    (l1 l2 l3 : List String)
    (hkeys : H.map (·.1) = l1 ++ A :: (l2 ++ B :: l3))
    (hnodup : (H.map (·.1)).Nodup)
    (hrun : breakCycles fuel H = .ok H')
    (hA : lookupType H A = some dA) (hB : lookupType H B = some dB)
    (heA : dA.isEnum = false) (heB : dB.isEnum = false)
    (hsA : dA.representAsStruct = true) (hsB : dB.representAsStruct = true)
    (hedgeAB : structEdgeB H A B = true) (hedgeBA : structEdgeB H B A = true)
    (honly : ∀ v, structEdgeB H B v = true → v = A) :
    lookupType H' A = some { dA with representAsStruct := false } ∧
    lookupType H' B = some dB := by
  unfold breakCycles at hrun
  rw [hkeys] at hnodup hrun
  obtain ⟨hAl1, hAl2, hAl3, hBl1, hBl2, hBl3, hAB⟩ := nodup_decompose hnodup
  obtain ⟨HA0, hl1run, hrest⟩ := breakCyclesAux_append hrun
  rw [breakCyclesAux] at hrest
  obtain ⟨HA1, hstepA, hrest2⟩ := except_bind_ok hrest
  have hA0A : lookupType HA0 A = some dA := by
    rw [breakCyclesAux_preserves_absent
      (fun n hn he => hAl1 (by rw [he]; exact hn)) hl1run]
    exact hA
  have hA0B : lookupType HA0 B = some dB := by
    rw [breakCyclesAux_preserves_absent
      (fun n hn he => hBl1 (by rw [he]; exact hn)) hl1run]
    exact hB
  have hedgeAB0 : structEdgeB HA0 A B = true := by
    rw [structEdgeB_congr (hA0A.trans hA.symm) (hA0B.trans hB.symm)]
    exact hedgeAB
  have hedgeBA0 : structEdgeB HA0 B A = true := by
    rw [structEdgeB_congr (hA0B.trans hB.symm) (hA0A.trans hA.symm)]
    exact hedgeBA
  rcases breakStep_cases hA0A heA hsA hstepA with ⟨V1, hfcA, rfl⟩ | ⟨V1, hfcA, rfl⟩
  · -- the A-B-A cycle was found, A is demoted; now follow the run up to B
    obtain ⟨HB0, hl2run, hrest3⟩ := breakCyclesAux_append hrest2
    rw [breakCyclesAux] at hrest3
    obtain ⟨HB1, hstepB, hl3run⟩ := except_bind_ok hrest3
    have hA1A : lookupType (setStruct HA0 A false) A =
        some { dA with representAsStruct := false } := by
      rw [lookup_setStruct_self, hA0A]
      rfl
    have hA1B : lookupType (setStruct HA0 A false) B = some dB := by
      rw [lookup_setStruct_ne (Ne.symm hAB)]
      exact hA0B
    have hB0A : lookupType HB0 A = some { dA with representAsStruct := false } := by
      rw [breakCyclesAux_preserves_absent
        (fun n hn he => hAl2 (by rw [he]; exact hn)) hl2run]
      exact hA1A
    have hB0B : lookupType HB0 B = some dB := by
      rw [breakCyclesAux_preserves_absent
        (fun n hn he => hBl2 (by rw [he]; exact hn)) hl2run]
      exact hA1B
    rcases breakStep_cases hB0B heB hsB hstepB with ⟨V2, hfcB, rfl⟩ | ⟨V2, hfcB, rfl⟩
    · -- a hit on B is impossible: B's only struct edge pointed to A, now demoted
      exfalso
      rcases (findCycle_sound_all fuel).1 _ _ _ _ _ hfcB with ⟨hmem, _⟩ | htrans
      · exact absurd hmem (List.not_mem_nil B)
      · obtain ⟨v, hedge⟩ := transGen_first_edge htrans
        have hevH : FlagEvolves H HB0 :=
          flagEvolves_trans (breakCyclesAux_evolves hl1run)
            (flagEvolves_trans (setStruct_evolves _ _) (breakCyclesAux_evolves hl2run))
        have hvA : v = A := honly v (structEdgeB_anti hevH hedge)
        rw [hvA] at hedge
        have hfalseEdge : structEdgeB HB0 B A = false := by
          unfold structEdgeB
          rw [hB0B, hB0A]
          simp
        rw [hfalseEdge] at hedge
        cases hedge
    · -- B's step is a miss; nothing after B touches A or B
      constructor
      · rw [breakCyclesAux_preserves_absent
          (fun n hn he => hAl3 (by rw [he]; exact hn)) hl3run]
        exact hB0A
      · rw [breakCyclesAux_preserves_absent
          (fun n hn he => hBl3 (by rw [he]; exact hn)) hl3run]
        exact hB0B
  · -- a miss on A is impossible: the A-B-A cycle exists at A's turn
    exfalso
    exact findCycle_false_no_cycle hfcA
      (Relation.TransGen.head hedgeAB0 (Relation.TransGen.single hedgeBA0))

/-! ## Concrete hierarchies for counterexamples and witnesses -/

/-- A raw node as the graph builder produces it (no flags yet). -/
def mkNode (ex : List String) (props : List (String × PropertyDef)) : TypeDef :=
  { extends_ := ex, properties := props, comment := "" }

/-- Extract the value of a successful computation (used only to name
concrete results; every use is accompanied by an `.ok` equation). -/
def exceptD {ε α : Type} (dflt : α) : Except ε α → α
  | .ok a => a
  | .error _ => dflt

/-- An input on which an enum node in the struct lineage (`X` extends both
`Rating` and `Enumeration` and has a property of its own type) keeps a
self-cycle through cycle breaking. -/
def H1raw : TypeHierarchy := [
  ("Thing", mkNode [] []),
  ("Rating", mkNode ["Thing"] []),
  ("Enumeration", mkNode ["Thing"] []),
  ("X", mkNode ["Rating", "Enumeration"] [("p", { types := ["X"], comment := "" })])
]

/-- `H1raw` after classification. -/
def H1f : TypeHierarchy := exceptD [] (computeFlags 10 [] H1raw)

/-- `H1f` after cycle breaking. -/
def H1b : TypeHierarchy := exceptD [] (breakCycles 10 H1f)

/-- A mutually referencing struct pair: `A` (earlier key) and `B` (later
key) each have a property whose candidate type is the other. -/
def H2raw : TypeHierarchy := [
  ("Thing", mkNode [] []),
  ("StructuredValue", mkNode ["Thing"] []),
  ("A", mkNode ["StructuredValue"] [("b", { types := ["B"], comment := "" })]),
  ("B", mkNode ["StructuredValue"] [("a", { types := ["A"], comment := "" })])
]

/-- `H2raw` after classification. -/
def H2f : TypeHierarchy := exceptD [] (computeFlags 10 [] H2raw)

/-- `H2f` after cycle breaking. -/
def H2b : TypeHierarchy := exceptD [] (breakCycles 10 H2f)

/-- The classified record of `A` in `H2f`. -/
def dAc2 : TypeDef := (lookupType H2f "A").getD (mkNode [] [])

/-- The classified record of `B` in `H2f`. -/
def dBc2 : TypeDef := (lookupType H2f "B").getD (mkNode [] [])

/-! ## Claim C1 -/

/-- **C1** (amended: restricted to non-enum types — an enum node in the
struct lineage is skipped by the loop, see the counterexample): after the
cycle-detection loop completes successfully, every type that is not an enum
and remains struct-representable never reaches itself through a chain of
struct-typed property edges, so no such struct type is emitted as a field of
itself, directly or transitively. -/
theorem breakCycles_acyclic_nonEnum (fuel : Nat) (H H' : TypeHierarchy)
    (hrun : breakCycles fuel H = .ok H') :
    ∀ t d, lookupType H' t = some d → d.isEnum = false → d.representAsStruct = true →
      ¬ Reaches H' t t := by
  intro t d hld henum hstruct
  unfold breakCycles at hrun
  have hl : lookupType H t = some d :=
    flagEvolves_struct_back (breakCyclesAux_evolves hrun) hld hstruct
  exact breakCyclesAux_acyclic hrun t d (lookup_some_mem_keys hl) hld henum hstruct

/-- **C1 counterexample**: on `H1raw`, after classification and cycle
breaking, the type `X` remains struct-representable yet reaches itself via a
struct property edge — the claim as stated (over *every* type that remains
struct-representable) is false; `X` escapes because the loop skips enums. -/
theorem breakCycles_enum_selfcycle_cex :
    computeFlags 10 [] H1raw = .ok H1f ∧
    breakCycles 10 H1f = .ok H1b ∧
    (lookupType H1b "X").map (·.isEnum) = some true ∧
    (lookupType H1b "X").map (·.representAsStruct) = some true ∧
    Reaches H1b "X" "X" :=
  ⟨rfl, rfl, rfl, rfl, Relation.TransGen.single (by rfl)⟩

/-- Witness for C1: on the concrete pair hierarchy, `B` survives cycle
breaking struct-representable and the theorem yields that it is on no
struct-edge cycle. -/
theorem breakCycles_acyclic_nonEnum_witness : ¬ Reaches H2b "B" "B" :=
  breakCycles_acyclic_nonEnum 10 H2f H2b (by rfl) "B"
    ((lookupType H2b "B").getD (mkNode [] [])) (by rfl) (by rfl) (by rfl)

/-! ## Claim C2 -/

/-- **C2 counterexample**: on the mutual pair `A`/`B` (with `A` visited
first), the loop demotes `A`, the *earlier*-visited node, and keeps `B`
struct-representable — contradicting the claim that the later-visited one is
demoted and the earlier one remains. -/
theorem breakCycles_pair_cex :
    computeFlags 10 [] H2raw = .ok H2f ∧
    breakCycles 10 H2f = .ok H2b ∧
    (lookupType H2f "A").map (·.representAsStruct) = some true ∧
    (lookupType H2f "B").map (·.representAsStruct) = some true ∧
    (lookupType H2b "A").map (·.representAsStruct) = some false ∧
    (lookupType H2b "B").map (·.representAsStruct) = some true :=
  ⟨rfl, rfl, rfl, rfl, rfl, rfl⟩

/-- Witness for C2 (amended): instantiating the pair theorem on the concrete
hierarchy shows `A` demoted and `B` intact. -/
theorem breakCycles_pair_demotes_earlier_witness :
    lookupType H2b "A" = some { dAc2 with representAsStruct := false } ∧
    lookupType H2b "B" = some dBc2 :=
  breakCycles_pair_demotes_earlier 10 H2f H2b "A" "B" dAc2 dBc2
    ["Thing", "StructuredValue"] [] [] (by rfl) (by decide) (by rfl) (by rfl) (by rfl)
    (by rfl) (by rfl) (by rfl) (by rfl) (by rfl) (by rfl)
    (fun v hv => by
      have hmem := (structEdgeB_iff_target (show lookupType H2f "B" = some dBc2 from rfl)).mp hv
      have hp := (mem_structTargets.mp hmem).1
      have hpt : propTargets dBc2 = ["A"] := rfl
      rw [hpt] at hp
      simpa using hp)

/-! ## Claim C9: topological soundness of the emission order -/

/-- Index of the first occurrence of `a` (length of the list if absent). -/
def firstIdx (a : String) : List String → Nat
  | [] => 0
  | b :: l => if b == a then 0 else firstIdx a l + 1

theorem firstIdx_lt_length {a : String} {l : List String} (h : a ∈ l) :
    firstIdx a l < l.length := by
  induction l with
  | nil => cases h
  | cons b l ih =>
    rw [firstIdx]
    by_cases hb : b == a
    · rw [if_pos hb]; simp
    · rw [if_neg hb]
      have : a ∈ l := by
        rcases List.mem_cons.mp h with h' | h'
        · exact absurd (by simp [h']) hb
        · exact h'
      simpa using Nat.succ_lt_succ (ih this)

theorem firstIdx_append_left {a : String} {l1 l2 : List String} (h : a ∈ l1) :
    firstIdx a (l1 ++ l2) = firstIdx a l1 := by
  induction l1 with
  | nil => cases h
  | cons b l1 ih =>
    rw [List.cons_append, firstIdx, firstIdx]
    by_cases hb : b == a
    · rw [if_pos hb, if_pos hb]
    · rw [if_neg hb, if_neg hb]
      have : a ∈ l1 := by
        rcases List.mem_cons.mp h with h' | h'
        · exact absurd (by simp [h']) hb
        · exact h'
      rw [ih this]

theorem firstIdx_append_self {a : String} {l1 : List String} (h : a ∉ l1) :
    firstIdx a (l1 ++ [a]) = l1.length := by
  induction l1 with
  | nil => simp [firstIdx]
  | cons b l1 ih =>
    rw [List.cons_append, firstIdx]
    have hb : (b == a) = false := by
      simp only [beq_eq_false_iff_ne]
      intro hh
      exact h (by rw [hh]; exact List.mem_cons_self a l1)
    rw [if_neg (by simp [hb])]
    rw [ih (fun hm => h (List.mem_cons_of_mem _ hm))]
    rfl

/-- A node the topological sort emits: present and neither an action, an
enum, nor struct-representable (the guard at lines 859-861). -/
def eligibleB (H : TypeHierarchy) (t : String) : Bool :=
  match lookupType H t with
  | some d => !(d.isAction || d.isEnum || d.representAsStruct)
  | none => false

/-- The invariant of the emission order under construction: all members are
eligible, and each member's eligible parents are already in the order at a
strictly earlier first position. -/
def GoodOrder (H : TypeHierarchy) (order : List String) : Prop :=
  (∀ x ∈ order, eligibleB H x = true) ∧
  ∀ t ∈ order, ∀ d, lookupType H t = some d → ∀ p ∈ d.extends_,
    eligibleB H p = true → p ∈ order ∧ firstIdx p order < firstIdx t order

/-- Joint invariant preservation for `toposort` and its parents loop. -/
theorem toposort_invariant_all : ∀ fuel : Nat,
    (∀ H t order order', toposortNode fuel H t order = .ok order' →
      (∃ l, order' = order ++ l) ∧ (GoodOrder H order → GoodOrder H order') ∧
      (t ∈ order') ∨ (∃ l, order' = order ++ l) ∧ (GoodOrder H order → GoodOrder H order') ∧
      eligibleB H t = false) ∧
    (∀ H es order order', toposortList fuel H es order = .ok order' →
      (∃ l, order' = order ++ l) ∧ (GoodOrder H order → GoodOrder H order') ∧
      (∀ e ∈ es, eligibleB H e = true → e ∈ order')) := by
  intro fuel
  induction fuel with
  | zero =>
    constructor <;> intro H t order order' h <;> simp [toposortNode, toposortList] at h
  | succ fuel ih =>
    obtain ⟨ihn, ihl⟩ := ih
    have append_mem : ∀ (o : List String) (l : List String) (x : String),
        x ∈ o → x ∈ o ++ l := fun o l x hx => List.mem_append.mpr (Or.inl hx)
    constructor
    · intro H t order order' h
      rw [toposortNode] at h
      split at h
      · cases h
      · next d hl =>
        split at h
        · next hflags =>
          cases h
          refine Or.inr ⟨⟨[], by simp⟩, fun g => g, ?_⟩
          unfold eligibleB
          rw [hl]
          simp [hflags]
        · next hflags =>
          obtain ⟨o1, ho1, hres⟩ := except_bind_ok h
          obtain ⟨⟨l1, hl1⟩, hgood1, hens1⟩ := ihl H d.extends_ order o1 ho1
          have heligt : eligibleB H t = true := by
            unfold eligibleB
            rw [hl]
            simp only [Bool.not_eq_true] at hflags
            simp [hflags]
          simp only [Except.ok.injEq] at hres
          by_cases hto : t ∈ o1
          · rw [if_pos hto] at hres
            subst hres
            exact Or.inl ⟨⟨l1, hl1⟩, hgood1, hto⟩
          · rw [if_neg hto] at hres
            subst hres
            refine Or.inl ⟨⟨l1 ++ [t], by rw [hl1, List.append_assoc]⟩, ?_,
              List.mem_append.mpr (Or.inr (List.mem_cons_self t []))⟩
            intro hgood
            obtain ⟨helig, horder⟩ := hgood1 hgood
            constructor
            · intro x hx
              rcases List.mem_append.mp hx with hx | hx
              · exact helig x hx
              · rw [List.mem_singleton.mp hx]; exact heligt
            · intro x hx d' hld' p hp heligp
              rcases List.mem_append.mp hx with hx | hx
              · obtain ⟨hpmem, hlt⟩ := horder x hx d' hld' p hp heligp
                refine ⟨append_mem _ _ _ hpmem, ?_⟩
                rw [firstIdx_append_left hpmem, firstIdx_append_left hx]
                exact hlt
              · have hxt := List.mem_singleton.mp hx
                subst hxt
                rw [hl] at hld'
                cases hld'
                have hpmem : p ∈ o1 := hens1 p hp heligp
                refine ⟨append_mem _ _ _ hpmem, ?_⟩
                rw [firstIdx_append_left hpmem, firstIdx_append_self hto]
                exact firstIdx_lt_length hpmem
    · intro H es order order' h
      match es with
      | [] =>
        rw [toposortList] at h
        cases h
        exact ⟨⟨[], by simp⟩, fun g => g, by simp⟩
      | e :: rest =>
        rw [toposortList] at h
        split at h
        · next hle =>
          obtain ⟨⟨l1, hl1⟩, hgood1, hens1⟩ := ihl H rest order order' h
          refine ⟨⟨l1, hl1⟩, hgood1, ?_⟩
          intro x hx heligx
          rcases List.mem_cons.mp hx with rfl | hx
          · unfold eligibleB at heligx
            rw [hle] at heligx
            cases heligx
          · exact hens1 x hx heligx
        · next de hle =>
          obtain ⟨o1, ho1, hres⟩ := except_bind_ok h
          obtain ⟨⟨l2, hl2⟩, hgood2, hens2⟩ := ihl H rest o1 order' hres
          have hnode := ihn H e order o1 ho1
          rcases hnode with ⟨⟨l1, hl1⟩, hgood1, hmem1⟩ | ⟨⟨l1, hl1⟩, hgood1, hineg⟩
          · refine ⟨⟨l1 ++ l2, by rw [hl2, hl1, List.append_assoc]⟩,
              fun g => hgood2 (hgood1 g), ?_⟩
            intro x hx heligx
            rcases List.mem_cons.mp hx with rfl | hx
            · rw [hl2]; exact append_mem _ _ _ hmem1
            · exact hens2 x hx heligx
          · refine ⟨⟨l1 ++ l2, by rw [hl2, hl1, List.append_assoc]⟩,
              fun g => hgood2 (hgood1 g), ?_⟩
            intro x hx heligx
            rcases List.mem_cons.mp hx with rfl | hx
            · rw [hineg] at heligx; cases heligx
            · exact hens2 x hx heligx

/-- The driver loop preserves the invariant. -/
theorem toposortAll_good {fuel : Nat} {H : TypeHierarchy} :
    ∀ {names : List String} {order order' : List String},
    toposortAll fuel H names order = .ok order' →
    GoodOrder H order → GoodOrder H order' := by
  intro names
  induction names with
  | nil =>
    intro order order' h hg
    rw [toposortAll] at h
    cases h
    exact hg
  | cons n rest ih =>
    intro order order' h hg
    rw [toposortAll] at h
    by_cases hn : n ∈ order
    · rw [if_pos hn] at h
      exact ih h hg
    · rw [if_neg hn] at h
      obtain ⟨o1, ho1, hres⟩ := except_bind_ok h
      rcases (toposort_invariant_all fuel).1 H n order o1 ho1 with
        ⟨_, hgood, _⟩ | ⟨_, hgood, _⟩ <;> exact ih hres (hgood hg)

/-- **C9**: in the emission order (nodes that are not actions, not enums and
not struct-representable, visited parents-first), every parent of an emitted
type that is itself emitted appears strictly earlier in the sequence. -/
theorem emissionOrder_topological (fuel : Nat) (H : TypeHierarchy) (order : List String)
    (hrun : emissionOrder fuel H = .ok order) :
    ∀ t, t ∈ order → ∀ d, lookupType H t = some d → ∀ p, p ∈ d.extends_ → p ∈ order →
      firstIdx p order < firstIdx t order := by
  intro t htmem d hld p hp hpmem
  unfold emissionOrder at hrun
  have hgood : GoodOrder H order :=
    toposortAll_good hrun ⟨by simp, by simp⟩
  have heligp : eligibleB H p = true := hgood.1 p hpmem
  exact (hgood.2 t htmem d hld p hp heligp).2

/-- A small realistic input: a struct type `Rating` with a keyword-named
property `class`, and a top-level type `T` referencing it. -/
def H10raw : TypeHierarchy := [
  ("Thing", mkNode [] []),
  ("Rating", mkNode ["Thing"] [("class", { types := ["Text"], comment := "" })]),
  ("T", mkNode ["Thing"] [("score", { types := ["Rating"], comment := "The rating." })])
]

/-- `H10raw` after classification. -/
def H10f : TypeHierarchy := exceptD [] (computeFlags 10 [] H10raw)

/-- `H10f` after cycle breaking. -/
def H10b : TypeHierarchy := exceptD [] (breakCycles 10 H10f)

/-- `H10b` after ancestor propagation. -/
def H10p : TypeHierarchy := exceptD [] (propagate 10 H10b)

/-- The emission order of `H10p`. -/
def ord10 : List String := exceptD [] (emissionOrder 10 H10p)

/-- The record of `T` in `H10p`. -/
def dT10 : TypeDef := (lookupType H10p "T").getD (mkNode [] [])

/-- Witness for C9: on the concrete hierarchy, the emitted parent `Thing` of
the emitted type `T` appears strictly earlier in the order. -/
theorem emissionOrder_topological_witness :
    firstIdx "Thing" ord10 < firstIdx "T" ord10 :=
  emissionOrder_topological 10 H10p ord10 (by rfl) "T" (by decide) dT10 (by rfl)
    "Thing" (by decide) (by decide)

/-! ## Claim C8: first-seen wins during compound-property collection -/

theorem lookupAssoc_cons {α : Type} (p : String × α) (l : List (String × α))
    (name : String) :
    lookupAssoc (p :: l) name =
      if p.1 == name then some p.2 else lookupAssoc l name := by
  unfold lookupAssoc
  simp only [List.find?]
  by_cases hp : (p.1 == name) = true
  · simp [hp]
  · simp [hp]

theorem lookupAssoc_append_some {α : Type} {l1 l2 : List (String × α)} {name : String}
    {v : α} (h : lookupAssoc l1 name = some v) : lookupAssoc (l1 ++ l2) name = some v := by
  induction l1 with
  | nil => simp [lookupAssoc] at h
  | cons p rest ih =>
    rw [lookupAssoc_cons] at h
    rw [List.cons_append, lookupAssoc_cons]
    by_cases hp : (p.1 == name) = true
    · rw [if_pos hp] at h ⊢
      exact h
    · rw [if_neg hp] at h ⊢
      exact ih h

/-- The property-insertion fold of `recursiveCollectProperties` (insert only
if the name is not yet present) never changes an existing binding. -/
theorem insertFold_preserves (props : List (String × PropertyDef)) :
    ∀ (acc : List (String × PropertyDef)) (name : String) (pd : PropertyDef),
    lookupAssoc acc name = some pd →
    lookupAssoc (props.foldl
      (fun m p => if m.any (fun q => q.1 == p.1) then m else m ++ [p]) acc) name = some pd := by
  induction props with
  | nil => intro acc name pd h; exact h
  | cons p rest ih =>
    intro acc name pd h
    rw [List.foldl_cons]
    by_cases hmem : acc.any (fun q => q.1 == p.1)
    · rw [if_pos hmem]
      exact ih acc name pd h
    · rw [if_neg hmem]
      exact ih _ name pd (lookupAssoc_append_some h)

/-- Joint preservation for the collector and its parents loop. -/
theorem collect_preserves_all : ∀ fuel : Nat,
    (∀ H st t acc acc', recursiveCollectProperties fuel H st t acc = .ok acc' →
      ∀ name pd, lookupAssoc acc name = some pd → lookupAssoc acc' name = some pd) ∧
    (∀ H st es acc acc', recursiveCollectPropertiesList fuel H st es acc = .ok acc' →
      ∀ name pd, lookupAssoc acc name = some pd → lookupAssoc acc' name = some pd) := by
  intro fuel
  induction fuel with
  | zero =>
    constructor <;> intro H st t acc acc' h <;>
      simp [recursiveCollectProperties, recursiveCollectPropertiesList] at h
  | succ fuel ih =>
    obtain ⟨ihn, ihl⟩ := ih
    constructor
    · intro H st t acc acc' h name pd hname
      rw [recursiveCollectProperties] at h
      split at h
      · cases h; exact hname
      · next d hl =>
        split at h
        · cases h; exact hname
        · split at h
          · cases h
            exact insertFold_preserves d.properties acc name pd hname
          · exact ihl H st d.extends_ _ acc' h name pd
              (insertFold_preserves d.properties acc name pd hname)
    · intro H st es acc acc' h name pd hname
      cases es with
      | nil =>
        rw [recursiveCollectPropertiesList] at h
        cases h
        exact hname
      | cons e rest =>
        rw [recursiveCollectPropertiesList] at h
        obtain ⟨a1, ha1, hrest⟩ := except_bind_ok h
        exact ihl H st rest a1 acc' hrest name pd (ihn H st e acc a1 ha1 name pd hname)

/-- **C8**: while collecting the compound fields of a type, parents are
walked recursively and for every property name the first-seen definition
wins: a binding already collected (from a more-specific node) is never
overwritten by a same-named property seen later in the walk. -/
theorem recursiveCollectProperties_first_wins (fuel : Nat) (H : TypeHierarchy)
    (st t : String) (acc acc' : List (String × PropertyDef))
    (h : recursiveCollectProperties fuel H st t acc = .ok acc') :
    ∀ name pd, lookupAssoc acc name = some pd → lookupAssoc acc' name = some pd :=
  (collect_preserves_all fuel).1 H st t acc acc' h

/-- The property kept by the more specific node in the C8 witness. -/
def pdKeep : PropertyDef := { types := ["Number"], comment := "from the specific node" }

/-- Witness hierarchy for C8: `S` and its ancestor `StructuredValue` both
declare a property `p`. -/
def H8raw : TypeHierarchy := [
  ("Thing", mkNode [] []),
  ("StructuredValue", mkNode ["Thing"] [("p", { types := ["Text"], comment := "" })]),
  ("S", mkNode ["StructuredValue"] [("p", pdKeep)])
]

/-- `H8raw` after classification. -/
def H8f : TypeHierarchy := exceptD [] (computeFlags 10 [] H8raw)

/-- The collection state after `S`'s own properties were taken. -/
def acc8 : List (String × PropertyDef) := [("p", pdKeep)]

/-- The result of continuing the walk into the ancestor. -/
def acc8' : List (String × PropertyDef) :=
  exceptD [] (recursiveCollectProperties 10 H8f "S" "StructuredValue" acc8)

/-- Witness for C8: the ancestor's same-named `p` does not overwrite the
already-collected binding. -/
theorem recursiveCollectProperties_first_wins_witness :
    lookupAssoc acc8' "p" = some pdKeep :=
  recursiveCollectProperties_first_wins 10 H8f "S" "StructuredValue" acc8 acc8'
    (by rfl) "p" pdKeep (by rfl)

/-! ## Claim C7: `makeCompoundType` keeps exactly the surviving fields -/

/-- The fields that survive property resolution: name and type of every
collected property whose `getBestPropertyType` returns a type. -/
def survivingFields (fuel : Nat) (px : String) (H : TypeHierarchy)
    (props : List (String × PropertyDef)) : List (String × TTType) :=
  props.filterMap (fun p =>
    match getBestPropertyType fuel px p.1 p.2 H with
    | .ok (some (_, tt)) => some (p.1, tt)
    | _ => none)

/-- One unfolding step of `makeCompoundType`. -/
theorem makeCompoundType_succ (fuel : Nat) (px st : String) (H : TypeHierarchy) :
    makeCompoundType (fuel+1) px st H =
      match recursiveCollectProperties (fuel+1) H st st [] with
      | .error _ => .error "fuel"
      | .ok props => mcFoldOf (gbptOf (resolverAt fuel).t2tt px) st H props [] false := rfl

/-- Characterization of the field-building fold. -/
theorem mcFoldOf_spec (st : String) (H : TypeHierarchy)
    (gb : String → PropertyDef → TypeHierarchy → Except String (Option (String × TTType))) :
    ∀ (props : List (String × PropertyDef)) (acc : List (String × TTType)) (anyfield : Bool),
    (∀ p ∈ props, ∀ e, gb p.1 p.2 H ≠ .error e) →
    (anyfield = false → acc = []) →
    (anyfield = true → acc ≠ []) →
    ((acc ++ props.filterMap (fun p => match gb p.1 p.2 H with
        | .ok (some q) => some (p.1, q.2) | _ => none)) = [] →
      mcFoldOf gb st H props acc anyfield = .error ("Struct type " ++ st ++ " has no fields")) ∧
    ((acc ++ props.filterMap (fun p => match gb p.1 p.2 H with
        | .ok (some q) => some (p.1, q.2) | _ => none)) ≠ [] →
      mcFoldOf gb st H props acc anyfield = .ok (.compound st
        (acc ++ props.filterMap (fun p => match gb p.1 p.2 H with
          | .ok (some q) => some (p.1, q.2) | _ => none)))) := by
  intro props
  induction props with
  | nil =>
    intro acc anyfield _ hfa hft
    simp only [List.filterMap_nil, List.append_nil]
    constructor
    · intro hz
      cases anyfield with
      | false => rw [mcFoldOf]; simp
      | true => exact absurd hz (hft rfl)
    · intro hnz
      cases anyfield with
      | false => exact absurd (hfa rfl) hnz
      | true => rw [mcFoldOf]; simp
  | cons p rest ih =>
    intro acc anyfield hok hfa hft
    have hokr : ∀ q ∈ rest, ∀ e, gb q.1 q.2 H ≠ .error e :=
      fun q hq => hok q (List.mem_cons_of_mem _ hq)
    cases hgb : gb p.1 p.2 H with
    | error e => exact absurd hgb (hok p (List.mem_cons_self p rest) e)
    | ok r =>
      cases r with
      | none =>
        have hstep : mcFoldOf gb st H (p :: rest) acc anyfield =
            mcFoldOf gb st H rest acc anyfield := by
          rw [mcFoldOf]
          simp [Bind.bind, Except.bind, hgb]
        simp only [List.filterMap_cons, hgb, hstep]
        exact ih acc anyfield hokr hfa hft
      | some q =>
        have hstep : mcFoldOf gb st H (p :: rest) acc anyfield =
            mcFoldOf gb st H rest (acc ++ [(p.1, q.2)]) true := by
          rw [mcFoldOf]
          simp [Bind.bind, Except.bind, hgb]
        simp only [List.filterMap_cons, hgb, hstep]
        constructor
        · intro hz
          simp at hz
        · intro _
          have hres := (ih (acc ++ [(p.1, q.2)]) true hokr (fun hh => by cases hh)
            (fun _ => by simp)).2 (by simp)
          rw [hres]
          simp

/-- **C7**: for a starting type whose collected properties all resolve
without error, `makeCompoundType` fails with the named error
`"Struct type <name> has no fields"` exactly when zero fields survive
resolution; otherwise it returns the compound type holding exactly the
surviving fields. -/
theorem makeCompoundType_spec (fuel : Nat) (px st : String) (H : TypeHierarchy)
    (props : List (String × PropertyDef))
    (hcol : recursiveCollectProperties (fuel+1) H st st [] = .ok props)
    (hok : ∀ p ∈ props, ∀ e, getBestPropertyType fuel px p.1 p.2 H ≠ .error e) :
    (survivingFields fuel px H props = [] →
      makeCompoundType (fuel+1) px st H = .error ("Struct type " ++ st ++ " has no fields")) ∧
    (survivingFields fuel px H props ≠ [] →
      makeCompoundType (fuel+1) px st H = .ok (.compound st (survivingFields fuel px H props))) := by
  have hbody : makeCompoundType (fuel+1) px st H =
      mcFoldOf (gbptOf (resolverAt fuel).t2tt px) st H props [] false := by
    rw [makeCompoundType_succ, hcol]
  have hfold := mcFoldOf_spec st H (gbptOf (resolverAt fuel).t2tt px) props [] false
    hok (fun _ => rfl) (fun hh => by cases hh)
  have hsurv : (props.filterMap (fun p =>
      match gbptOf (resolverAt fuel).t2tt px p.1 p.2 H with
      | .ok (some q) => some (p.1, q.2) | _ => none)) = survivingFields fuel px H props := by
    unfold survivingFields getBestPropertyType
    congr 1
    funext p
    cases gbptOf (resolverAt fuel).t2tt px p.1 p.2 H with
    | error e => rfl
    | ok r => cases r with
      | none => rfl
      | some q => rfl
  rw [hsurv] at hfold
  simp only [List.nil_append] at hfold
  constructor
  · intro hz
    rw [hbody]
    exact hfold.1 hz
  · intro hnz
    rw [hbody]
    exact hfold.2 hnz

/-- The properties collected for `Rating` in the witness hierarchy. -/
def props10 : List (String × PropertyDef) :=
  exceptD [] (recursiveCollectProperties 5 H10p "Rating" "Rating" [])

/-- Witness for C7: on the concrete hierarchy, `Rating` has one surviving
field and `makeCompoundType` returns exactly it. -/
theorem makeCompoundType_spec_witness :
    makeCompoundType 5 "org.schema:" "Rating" H10p =
      .ok (.compound "Rating" (survivingFields 4 "org.schema:" H10p props10)) :=
  (makeCompoundType_spec 4 "org.schema:" "Rating" H10p props10 (by rfl)
    (fun p hp e h => by
      have hp' : p = ("class", { types := ["Text"], comment := "" }) := by
        have : props10 = [("class", { types := ["Text"], comment := "" })] := rfl
        rw [this] at hp
        simpa using hp
      rw [hp'] at h
      rw [show getBestPropertyType 4 "org.schema:" "class"
        { types := ["Text"], comment := "" } H10p = .ok (some ("Text", TTType.string))
        from rfl] at h
      cases h)).2
    (by
      intro hh
      rw [show survivingFields 4 "org.schema:" H10p props10 =
        [("class", TTType.string)] from rfl] at hh
      cases hh)

/-! ## Claim C6: when `getBestPropertyType` resolves to nothing -/

/-- The maximum of the candidate scores, `none` standing for the initial
`-Infinity` over an empty candidate list. -/
def maxScore (H : TypeHierarchy) (types : List String) : Option Int :=
  types.foldl (fun acc ty =>
    match acc with
    | none => some (scoreOf H ty)
    | some m => some (max m (scoreOf H ty))) none

theorem bestCand_aux (H : TypeHierarchy) :
    ∀ (types : List String) (b : String) (s : Int),
    (types.foldl (fun acc ty =>
        let score := scoreOf H ty
        match acc with
        | none => some (ty, score)
        | some (b, bs) => if score > bs then some (ty, score) else some (b, bs))
      (some (b, s))).map (·.2)
      = types.foldl (fun acc ty =>
        match acc with
        | none => some (scoreOf H ty)
        | some m => some (max m (scoreOf H ty))) (some s) := by
  intro types
  induction types with
  | nil => intro b s; rfl
  | cons ty rest ih =>
    intro b s
    rw [List.foldl_cons, List.foldl_cons]
    show (List.foldl _
        (if scoreOf H ty > s then some (ty, scoreOf H ty) else some (b, s)) rest).map (·.2)
      = List.foldl _ (some (max s (scoreOf H ty))) rest
    by_cases hgt : scoreOf H ty > s
    · rw [if_pos hgt, ih, max_eq_right (le_of_lt hgt)]
    · rw [if_neg hgt, ih, max_eq_left (Int.not_lt.mp hgt)]

/-- The running best of the scoring loop carries exactly the maximum
score. -/
theorem bestCand_maxScore (H : TypeHierarchy) (types : List String) :
    (bestCand H types).map (·.2) = maxScore H types := by
  cases types with
  | nil => rfl
  | cons ty rest =>
    unfold bestCand maxScore
    rw [List.foldl_cons, List.foldl_cons]
    show (List.foldl _ (some (ty, scoreOf H ty)) rest).map (·.2)
      = List.foldl _ (some (scoreOf H ty)) rest
    exact bestCand_aux H rest ty (scoreOf H ty)

/-- The part of `getBestPropertyType` after the blacklist and score checks
have passed (lines 489-517), which always produces a resolved type or
throws. -/
def gbptResolve (t2 : String → String → TypeHierarchy → Except String TTType)
    (px pn : String) (prop : PropertyDef) (H : TypeHierarchy) (best : String) :
    Except String (Option (String × TTType)) :=
  let isArray := prop.types.any (fun ty =>
    match lookupType H ty with | some d => d.isItemList | none => false)
  let isArray := if commentIndefArticle prop.comment then true else isArray
  let isArray := if PROPERTY_FORCE_ARRAY.contains pn then true else isArray
  let isArray := if PROPERTY_FORCE_NOT_ARRAY.contains pn then false else isArray
  match lookupAssoc PROPERTY_TYPE_OVERRIDE pn with
  | some ov => .ok (some (best, ov))
  | none =>
    let isArray :=
      if (match lookupType H best with | some d => d.isItemList | none => false) then false
      else isArray
    if best == "QuantitativeValue" then
      if containsInsens pn "number" || containsInsens pn "level" ||
          containsInsens pn "quantity" then .ok (some (best, .number))
      else if containsInsens pn "duration" then .ok (some (best, .measure "ms"))
      else .ok (some (best, .number))
    else do
      let tttype ← t2 px best H
      let isArray := if tttype.isBooleanT || tttype.isEnumTT then false else isArray
      .ok (some (best, if isArray then .arrayT tttype else tttype))

/-- The resolution tail never yields `(undefined, undefined)`. -/
theorem gbptResolve_ne_none (t2 : String → String → TypeHierarchy → Except String TTType)
    (px pn : String) (prop : PropertyDef) (H : TypeHierarchy) (best : String) :
    gbptResolve t2 px pn prop H best ≠ .ok none := by
  intro h
  unfold gbptResolve at h
  rcases hov : lookupAssoc PROPERTY_TYPE_OVERRIDE pn with _ | ov
  · rw [hov] at h
    simp only at h
    split at h
    · split at h
      · simp at h
      · split at h <;> simp at h
    · obtain ⟨tt, _, hres⟩ := except_bind_ok h
      simp at hres
  · rw [hov] at h
    simp only at h
    simp at h

/-- `gbptOf` in staged form (the `isArray` lets commute with the early
checks). -/
theorem gbptOf_eq (t2 : String → String → TypeHierarchy → Except String TTType)
    (px pn : String) (prop : PropertyDef) (H : TypeHierarchy) :
    gbptOf t2 px pn prop H =
      if BLACKLISTED_PROPERTIES.contains pn then .ok none
      else match bestCand H prop.types with
        | none => .ok none
        | some (best, bestScore) =>
          if bestScore < 0 then .ok none
          else gbptResolve t2 px pn prop H best := rfl

/-- **C6**: `getBestPropertyType` returns `(undefined, undefined)` exactly
when the property name is block-listed (returning immediately) or the
maximum over the candidate scores is negative (`maxScore = none` is the
`-Infinity` of an empty candidate list, also negative); in every other case
it either resolves to a type or propagates an exception, so a property is
silently dropped precisely under those two conditions. -/
theorem getBestPropertyType_none_iff (fuel : Nat) (px pn : String) (prop : PropertyDef)
    (H : TypeHierarchy) :
    getBestPropertyType fuel px pn prop H = .ok none ↔
      (pn ∈ BLACKLISTED_PROPERTIES ∨ ∀ m, maxScore H prop.types = some m → m < 0) := by
  unfold getBestPropertyType
  rw [gbptOf_eq]
  by_cases hb : BLACKLISTED_PROPERTIES.contains pn
  · rw [if_pos hb]
    constructor
    · intro _
      exact Or.inl (by simpa using hb)
    · intro _
      rfl
  · rw [if_neg hb]
    have hbmem : pn ∉ BLACKLISTED_PROPERTIES := by simpa using hb
    cases hbc : bestCand H prop.types with
    | none =>
      have hms : maxScore H prop.types = none := by
        rw [← bestCand_maxScore, hbc]
        rfl
      constructor
      · intro _
        refine Or.inr ?_
        intro m hm
        rw [hms] at hm
        cases hm
      · intro _
        rfl
    | some r =>
      obtain ⟨best, bs⟩ := r
      have hms : maxScore H prop.types = some bs := by
        rw [← bestCand_maxScore, hbc]
        rfl
      show (if bs < 0 then Except.ok none
          else gbptResolve (resolverAt fuel).t2tt px pn prop H best) = Except.ok none ↔ _
      by_cases hneg : bs < 0
      · rw [if_pos hneg]
        constructor
        · intro _
          refine Or.inr ?_
          intro m hm
          rw [hms] at hm
          cases hm
          exact hneg
        · intro _
          rfl
      · rw [if_neg hneg]
        constructor
        · intro h
          exact absurd h (gbptResolve_ne_none _ _ _ _ _ _)
        · intro hr
          rcases hr with hr | hr
          · exact absurd hr hbmem
          · exact absurd (hr bs hms) hneg

/-- Witness-style corollary for C6: the block-listed property `sameAs` is
dropped. -/
theorem getBestPropertyType_none_iff_witness :
    getBestPropertyType 3 "org.schema:" "sameAs" { types := ["Text"], comment := "" } [] =
      .ok none :=
  (getBestPropertyType_none_iff 3 "org.schema:" "sameAs"
    { types := ["Text"], comment := "" } []).mpr (Or.inl (by simp [BLACKLISTED_PROPERTIES]))

/-! ## Claim C5: the forced-not-array override -/

theorem lookupAssoc_mem {α : Type} {l : List (String × α)} {name : String} {v : α}
    (h : lookupAssoc l name = some v) : ∃ k, (k, v) ∈ l := by
  unfold lookupAssoc at h
  cases hf : l.find? (·.1 == name) with
  | none => rw [hf] at h; cases h
  | some p =>
    rw [hf] at h
    cases h
    exact ⟨p.1, by simpa using List.mem_of_find?_eq_some hf⟩

/-- No builtin scalar type is an array. -/
theorem builtin_not_array : ∀ p ∈ BUILTIN_TYPEMAP, p.2.isArray = false := by decide

/-- The field fold only ever returns a compound type. -/
theorem mcFoldOf_shape (st : String) (H : TypeHierarchy)
    (gb : String → PropertyDef → TypeHierarchy → Except String (Option (String × TTType))) :
    ∀ props acc anyfield t, mcFoldOf gb st H props acc anyfield = .ok t →
      ∃ fs, t = TTType.compound st fs := by
  intro props
  induction props with
  | nil =>
    intro acc anyfield t h
    rw [mcFoldOf] at h
    split at h
    · cases h
    · cases h
      exact ⟨acc, rfl⟩
  | cons p rest ih =>
    intro acc anyfield t h
    rw [mcFoldOf] at h
    obtain ⟨r, _, hres⟩ := except_bind_ok h
    split at hres
    · exact ih acc anyfield t hres
    · exact ih _ true t hres

/-- `makeCompoundType` only ever returns a compound type. -/
theorem resolver_mct_shape (fuel : Nat) (px st : String) (H : TypeHierarchy) (t : TTType)
    (h : (resolverAt fuel).mct px st H = .ok t) : ∃ fs, t = TTType.compound st fs := by
  cases fuel with
  | zero => cases h
  | succ fuel =>
    have hh : mctOf (resolverAt fuel).t2tt (fuel+1) px st H = .ok t := h
    unfold mctOf at hh
    split at hh
    · cases hh
    · exact mcFoldOf_shape st H _ _ [] false t hh

/-- `typeToThingTalk` produces an array type only by resolving an item-list
node. -/
theorem t2tt_array : ∀ (fuel : Nat) (px tn : String) (H : TypeHierarchy) (elem : TTType),
    (resolverAt fuel).t2tt px tn H = .ok (.arrayT elem) →
    ∃ d, lookupType H tn = some d ∧ d.isItemList = true := by
  intro fuel px tn H elem h
  cases fuel with
  | zero => cases h
  | succ fuel =>
    have hh : t2ttOf (resolverAt fuel).t2tt (resolverAt fuel).mct px tn H =
      .ok (.arrayT elem) := h
    unfold t2ttOf at hh
    split at hh
    · next t hbt =>
      cases hh
      obtain ⟨k, hk⟩ := lookupAssoc_mem hbt
      have := builtin_not_array (k, .arrayT elem) hk
      simp [TTType.isArray] at this
    · split at hh
      · cases hh
      · next d hld =>
        split at hh
        · next hil => exact ⟨d, hld, hil⟩
        · split at hh
          · cases hh
          · split at hh
            · obtain ⟨fs, hfs⟩ := resolver_mct_shape fuel px tn H _ hh
              cases hfs
            · cases hh

/-- The input for the C5 counterexample: the property `offers` (a member of
the forced-not-array set) whose only candidate type is the list-wrapper
class `OfferCatalog`. -/
def H5raw : TypeHierarchy := [
  ("Thing", mkNode [] []),
  ("ItemList", mkNode ["Thing"] []),
  ("OfferCatalog", mkNode ["ItemList"] [])
]

/-- `H5raw` after classification. -/
def H5f : TypeHierarchy := exceptD [] (computeFlags 10 [] H5raw)

/-- The `offers` property of the counterexample. -/
def offersProp : PropertyDef := { types := ["OfferCatalog"], comment := "" }

/-- **C5 counterexample**: `offers` is in the forced-not-array set, its only
candidate is the list-wrapper `OfferCatalog`, and `getBestPropertyType`
still resolves it to an *array* type (the list-wrapper's own element array)
— contradicting the claim that such a property is never array-typed. -/
theorem forceNotArray_cex :
    "offers" ∈ PROPERTY_FORCE_NOT_ARRAY ∧
    computeFlags 10 [] H5raw = .ok H5f ∧
    (lookupType H5f "OfferCatalog").map (·.isItemList) = some true ∧
    getBestPropertyType 5 "org.schema:" "offers" offersProp H5f =
      .ok (some ("OfferCatalog", .arrayT (.entity "org.schema:Thing"))) :=
  ⟨by decide, rfl, rfl, rfl⟩

/-- **C5** (amended): a property in the forced-not-array set never has the
array heuristic applied — its resolved type is an array only when the chosen
best candidate is itself a list-wrapper class (whose `typeToThingTalk` is
intrinsically an array); no additional array wrapping ever happens. -/
theorem forceNotArray_no_wrap (fuel : Nat) (px pn : String) (prop : PropertyDef)
    (H : TypeHierarchy) (best : String) (elem : TTType)
    (hforce : pn ∈ PROPERTY_FORCE_NOT_ARRAY)
    (hres : getBestPropertyType fuel px pn prop H = .ok (some (best, .arrayT elem))) :
    ∃ d, lookupType H best = some d ∧ d.isItemList = true := by
  have hpn : pn = "offers" := by simpa [PROPERTY_FORCE_NOT_ARRAY] using hforce
  subst hpn
  unfold getBestPropertyType at hres
  rw [gbptOf_eq] at hres
  rw [if_neg (by decide)] at hres
  cases hbc : bestCand H prop.types with
  | none =>
    rw [hbc] at hres
    simp at hres
  | some r =>
    obtain ⟨b, bs⟩ := r
    rw [hbc] at hres
    simp only at hres
    by_cases hneg : bs < 0
    · rw [if_pos hneg] at hres
      simp at hres
    · rw [if_neg hneg] at hres
      unfold gbptResolve at hres
      rw [show lookupAssoc PROPERTY_TYPE_OVERRIDE "offers" = none from rfl] at hres
      simp only at hres
      split at hres
      · split at hres
        · simp at hres
        · split at hres <;> simp at hres
      · obtain ⟨tttype, ht2, hres2⟩ := except_bind_ok hres
        have hfn : PROPERTY_FORCE_NOT_ARRAY.contains "offers" = true := by decide
        rw [hfn] at hres2
        simp only [reduceIte, ite_self, Except.ok.injEq, Option.some.injEq,
          Prod.mk.injEq] at hres2
        obtain ⟨rfl, rfl⟩ := hres2
        exact t2tt_array fuel px b H elem ht2

/-- Witness for C5 (amended): at the counterexample input, the theorem
produces the list-wrapper evidence for the chosen candidate. -/
theorem forceNotArray_no_wrap_witness :
    ∃ d, lookupType H5f "OfferCatalog" = some d ∧ d.isItemList = true :=
  forceNotArray_no_wrap 5 "org.schema:" "offers" offersProp H5f "OfferCatalog"
    (.entity "org.schema:Thing") (by decide) (by rfl)

/-! ## Claim C4: the base-form fallback of makeArgCanonical -/

/-- A part-of-speech tagger for the C4 counterexample: tags the word
`available` as an adjective and every other word as a noun. -/
def availTagger : List String → List String :=
  fun ws => ws.map (fun w => if w == "available" then "JJ" else "NN")

/-- **C4 counterexample**: for the property `isAvailable`, candidate
processing populates the `passive_verb` role key (and leaves `base` empty),
yet with the always-generate-base-form flag set `makeArgCanonical` still adds
the fallback `base` entry — contradicting the claim that the fallback is
added only when *no* grammatical-role key was populated. -/
theorem makeArgCanonical_fallback_cex :
    (processCandidates availTagger [] "isAvailable" .string).passive_verb =
      some ["available"] ∧
    (processCandidates availTagger [] "isAvailable" .string).base = none ∧
    makeArgCanonical availTagger false true [] "isAvailable" .string =
      { passive_verb := some ["available"], base := some ["isAvailable"] } :=
  ⟨rfl, rfl, rfl⟩

/-- **C4** (amended): the fallback is keyed on the `base` role key alone: when
the property is in neither canonical-override table, the fallback `base`
entry (the raw identifier as a single template) is added exactly when the
`base` key is unpopulated after candidate processing and the
always-generate-base-form flag is set — regardless of other role keys — and
when `base` was populated the processed record is returned unchanged. -/
theorem makeArgCanonical_base_only (tagger : List String → List String)
    (manual always : Bool) (wlabels : List (String × List String))
    (name : String) (ptype : TTType)
    (h1 : lookupAssoc PROPERTY_CANONICAL_OVERRIDE name = none)
    (h2 : lookupAssoc MANUAL_PROPERTY_CANONICAL_OVERRIDE name = none) :
    (always = true → (processCandidates tagger wlabels name ptype).base = none →
      makeArgCanonical tagger manual always wlabels name ptype =
        { processCandidates tagger wlabels name ptype with base := some [name] }) ∧
    (∀ bs, (processCandidates tagger wlabels name ptype).base = some bs →
      makeArgCanonical tagger manual always wlabels name ptype =
        processCandidates tagger wlabels name ptype) := by
  have h2' : (if manual then lookupAssoc MANUAL_PROPERTY_CANONICAL_OVERRIDE name
      else none) = none := by
    cases manual <;> simp [h2]
  constructor
  · intro ha hb
    unfold makeArgCanonical
    rw [h1]
    simp only
    rw [h2']
    simp only [hb, ha, Option.isNone_none, Bool.and_true, if_true]
  · intro bs hb
    unfold makeArgCanonical
    rw [h1]
    simp only
    rw [h2']
    simp only [hb, Option.isNone_some, Bool.false_and]
    exact if_neg (fun h => Bool.noConfusion h)

/-- Witness for C4 (amended): for `gtin13` (whose cleaned form contains
digits, so candidate processing yields an empty record) the fallback fires
and produces the raw identifier as the sole base template. -/
theorem makeArgCanonical_base_only_witness :
    makeArgCanonical (fun ws => ws.map (fun _ => "NN")) false true [] "gtin13" .string =
      { processCandidates (fun ws => ws.map (fun _ => "NN")) [] "gtin13" .string with
        base := some ["gtin13"] } :=
  (makeArgCanonical_base_only (fun ws => ws.map (fun _ => "NN")) false true [] "gtin13"
    .string rfl rfl).1 rfl rfl

/-! ## Claim C10: keyword renaming of emitted names -/

/-- Every argument emitted by the property loop either was already in the
accumulator or carries the keyword-renamed name of one of the walked
properties. -/
theorem emitArgsFold_names (fuel : Nat) (px : String) (H : TypeHierarchy) :
    ∀ props acc res, emitArgsFold fuel px H props acc = .ok res →
    ∀ a ∈ res, a ∈ acc ∨ ∃ p, p ∈ props ∧ a.1 = renameIfKeyword p.1 := by
  intro props
  induction props with
  | nil =>
    intro acc res h a ha
    rw [emitArgsFold] at h
    cases h
    exact .inl ha
  | cons p rest ih =>
    intro acc res h a ha
    rw [emitArgsFold] at h
    obtain ⟨r, hr, h2⟩ := except_bind_ok h
    split at h2
    · rcases ih acc res h2 a ha with hin | ⟨q, hq, he⟩
      · exact .inl hin
      · exact .inr ⟨q, List.mem_cons_of_mem _ hq, he⟩
    · rcases ih _ res h2 a ha with hin | ⟨q, hq, he⟩
      · rcases List.mem_append.mp hin with hin2 | hin2
        · exact .inl hin2
        · have he2 := List.mem_singleton.mp hin2
          exact .inr ⟨p, List.mem_cons_self _ _, by rw [he2]⟩
      · exact .inr ⟨q, List.mem_cons_of_mem _ hq, he⟩

/-- Every argument emitted for a query is the synthetic `id`, the synthetic
`name`, or the keyword-renamed name of a property of the query's node. -/
theorem emitArgs_names (fuel : Nat) (px tn : String) (d : TypeDef) (H : TypeHierarchy)
    (args : List (String × TTType)) (h : emitArgs fuel px tn d H = .ok args) :
    ∀ a ∈ args, a.1 = "id" ∨ a.1 = "name" ∨
      ∃ p, p ∈ d.properties ∧ a.1 = renameIfKeyword p.1 := by
  intro a ha
  unfold emitArgs at h
  obtain ⟨props, hp, h2⟩ := except_bind_ok h
  cases h2
  rcases List.mem_append.mp ha with h0 | hp2
  · rcases List.mem_append.mp h0 with hid | hname
    · left
      rw [List.mem_singleton.mp hid]
    · right; left
      split at hname
      · cases hname
      · rw [List.mem_singleton.mp hname]
  · rcases emitArgsFold_names fuel px H d.properties [] props hp a hp2 with hin | he
    · cases hin
    · exact .inr (.inr he)

/-- Every emitted query either was already in the accumulator or is named by
keyword-renaming a walked type name, with all of its arguments as in
`emitArgs_names`. -/
theorem emitQueriesAux_names (fuel : Nat) (px : String) (H : TypeHierarchy) :
    ∀ order acc res, emitQueriesAux fuel px H order acc = .ok res →
    ∀ q ∈ res, q ∈ acc ∨ ∃ tn d, tn ∈ order ∧ lookupType H tn = some d ∧
      q.1 = renameIfKeyword tn ∧
      ∀ a ∈ q.2, a.1 = "id" ∨ a.1 = "name" ∨
        ∃ p, p ∈ d.properties ∧ a.1 = renameIfKeyword p.1 := by
  intro order
  induction order with
  | nil =>
    intro acc res h q hq
    rw [emitQueriesAux] at h
    cases h
    exact .inl hq
  | cons tn rest ih =>
    intro acc res h q hq
    rw [emitQueriesAux] at h
    split at h
    · cases h
    · next d hld =>
      split at h
      · rcases ih acc res h q hq with hin | ⟨tn', d', h1, h2, h3, h4⟩
        · exact .inl hin
        · exact .inr ⟨tn', d', List.mem_cons_of_mem _ h1, h2, h3, h4⟩
      · obtain ⟨args, hargs, h2⟩ := except_bind_ok h
        rcases ih _ res h2 q hq with hin | ⟨tn', d', h1, h2', h3, h4⟩
        · rcases List.mem_append.mp hin with hin2 | hin2
          · exact .inl hin2
          · right
            have hq' := List.mem_singleton.mp hin2
            subst hq'
            exact ⟨tn, d, List.mem_cons_self _ _, hld, rfl,
              fun a ha => emitArgs_names fuel px tn d H args hargs a ha⟩
        · exact .inr ⟨tn', d', List.mem_cons_of_mem _ h1, h2', h3, h4⟩

/-- **C10 counterexample**: `class` is a reserved keyword, yet the emitted
output contains the compound field `class` (inside the struct type of the
property `score` of `T`) under its original, un-prefixed name — compound
struct fields are never keyword-renamed. -/
theorem keyword_rename_cex :
    "class" ∈ KEYWORDS ∧
    emitQueries 6 "org.schema:" H10p ord10 = .ok [
      ("Thing", [("id", .entity "org.schema:Thing")]),
      ("T", [("id", .entity "org.schema:T"), ("name", .string),
             ("score", .compound "Rating" [("class", .string)])])] :=
  ⟨by decide, rfl⟩

/-- **C10** (amended): keyword renaming applies exactly to the top level of
the emitted output — every emitted query is named by `renameIfKeyword` of a
source type name, and every emitted argument is the synthetic `id` or `name`
or is named by `renameIfKeyword` of a source property name; field names
inside compound (struct) argument types are not renamed, as the
counterexample shows. -/
theorem emitQueries_keyword_rename (fuel : Nat) (px : String) (H : TypeHierarchy)
    (order : List String) (res : List (String × List (String × TTType)))
    (q : String × List (String × TTType)) (a : String × TTType)
    (h : emitQueries fuel px H order = .ok res) (hq : q ∈ res) (ha : a ∈ q.2) :
    ∃ tn d, tn ∈ order ∧ lookupType H tn = some d ∧ q.1 = renameIfKeyword tn ∧
      (a.1 = "id" ∨ a.1 = "name" ∨
        ∃ p, p ∈ d.properties ∧ a.1 = renameIfKeyword p.1) := by
  rcases emitQueriesAux_names fuel px H order [] res h q hq with hin | ⟨tn, d, h1, h2, h3, h4⟩
  · cases hin
  · exact ⟨tn, d, h1, h2, h3, h4 a ha⟩

/-- Witness for C10 (amended): the argument `score` of the emitted query `T`
on the concrete hierarchy. -/
theorem emitQueries_keyword_rename_witness :
    ∃ tn d, tn ∈ ord10 ∧ lookupType H10p tn = some d ∧
      ("T", [("id", TTType.entity "org.schema:T"), ("name", TTType.string),
        ("score", TTType.compound "Rating" [("class", TTType.string)])]).1 =
          renameIfKeyword tn ∧
      (("score", TTType.compound "Rating" [("class", TTType.string)]).1 = "id" ∨
       ("score", TTType.compound "Rating" [("class", TTType.string)]).1 = "name" ∨
        ∃ p, p ∈ d.properties ∧
          ("score", TTType.compound "Rating" [("class", TTType.string)]).1 =
            renameIfKeyword p.1) :=
  emitQueries_keyword_rename 6 "org.schema:" H10p ord10
    [("Thing", [("id", .entity "org.schema:Thing")]),
     ("T", [("id", .entity "org.schema:T"), ("name", .string),
            ("score", .compound "Rating" [("class", .string)])])]
    ("T", [("id", .entity "org.schema:T"), ("name", .string),
           ("score", .compound "Rating" [("class", .string)])])
    ("score", .compound "Rating" [("class", .string)])
    (by rfl)
    (List.mem_cons_of_mem _ (List.mem_cons_self _ _))
    (List.mem_cons_of_mem _ (List.mem_cons_of_mem _ (List.mem_cons_self _ _)))

/-! ## Claim C3: ancestor propagation -/

/-- The node named `t`, if present, has its struct flag off. -/
def Cleared (H : TypeHierarchy) (t : String) : Prop :=
  ∀ d, lookupType H t = some d → d.representAsStruct = false

/-- Every ancestor of `t` (present node reachable via parent edges) has its
struct flag off. -/
def Killed (H : TypeHierarchy) (t : String) : Prop :=
  ∀ a, ParentReach H t a → Cleared H a

/-- Presence of a node is invariant under flag evolution. -/
theorem isSome_evolves {H H' : TypeHierarchy} (he : FlagEvolves H H') (v : String) :
    (lookupType H' v).isSome = (lookupType H v).isSome := by
  rcases he v with ⟨e1, e2⟩ | ⟨d, hd, hc⟩
  · rw [e1, e2]
  · rcases hc with h2 | h2
    · rw [hd, h2]
    · rw [hd, h2]
      rfl

/-- Parent edges are invariant under flag evolution (they read only
`extends` and presence). -/
theorem parentEdgeB_congr {H H' : TypeHierarchy} (he : FlagEvolves H H') (u v : String) :
    parentEdgeB H' u v = parentEdgeB H u v := by
  unfold parentEdgeB
  rcases he u with ⟨e1, e2⟩ | ⟨d, hd, hc⟩
  · rw [e1, e2]
  · rcases hc with h2 | h2 <;> rw [hd, h2]
    · rw [isSome_evolves he v]
    · show (decide (v ∈ d.extends_) && (lookupType H' v).isSome) = _
      rw [isSome_evolves he v]

/-- Ancestor reachability is invariant under flag evolution. -/
theorem parentReach_congr {H H' : TypeHierarchy} (he : FlagEvolves H H') {u v : String} :
    ParentReach H' u v ↔ ParentReach H u v := by
  unfold ParentReach
  constructor
  · exact Relation.TransGen.mono (fun a b hab => by rw [parentEdgeB_congr he] at hab; exact hab)
  · exact Relation.TransGen.mono (fun a b hab => by rw [parentEdgeB_congr he]; exact hab)

/-- A cleared node stays cleared under flag evolution. -/
theorem cleared_forward {H H' : TypeHierarchy} (he : FlagEvolves H H') {t : String}
    (h : Cleared H t) : Cleared H' t := by
  intro d' hd'
  rcases he t with ⟨_, e2⟩ | ⟨d, hd, hc⟩
  · rw [e2] at hd'; cases hd'
  · rcases hc with h2 | h2 <;> rw [h2] at hd'
    · cases hd'
      exact h _ hd
    · cases hd'
      rfl

/-- A killed node stays killed under flag evolution. -/
theorem killed_forward {H H' : TypeHierarchy} (he : FlagEvolves H H') {t : String}
    (h : Killed H t) : Killed H' t := by
  intro a hra
  exact cleared_forward he (h a ((parentReach_congr he).mp hra))

/-- If every non-struct node's present parents are non-struct, every
non-struct node is killed (all its ancestors are non-struct). -/
theorem closed_to_killed (H : TypeHierarchy)
    (hss : ∀ t dt, lookupType H t = some dt → dt.representAsStruct = false →
      ∀ e, parentEdgeB H t e = true → Cleared H e) :
    ∀ t dt, lookupType H t = some dt → dt.representAsStruct = false → Killed H t := by
  intro t dt hd hflag a hra
  induction hra with
  | single hedge => exact hss t dt hd hflag _ hedge
  | tail hpath hedge ih =>
    rename_i b c
    have hb : (lookupType H b).isSome = true := by
      unfold parentEdgeB at hedge
      cases hlb : lookupType H b with
      | none => rw [hlb] at hedge; cases hedge
      | some db => rfl
    cases hlb : lookupType H b with
    | none => rw [hlb] at hb; cases hb
    | some db => exact hss b db hlb (ih db hlb) _ hedge

/-- Master lemma for `recursiveMakeNonStruct`: a successful run only clears
flags, clears the seed and all its ancestors, and touches nothing else (the
list version states the same for every present member). -/
theorem rmns_all : ∀ fuel : Nat,
    (∀ H t H2, recursiveMakeNonStruct fuel H t = .ok H2 →
      FlagEvolves H H2 ∧ Cleared H2 t ∧
      (∀ a, ParentReach H t a → Cleared H2 a) ∧
      (∀ u, u ≠ t → ¬ ParentReach H t u → lookupType H2 u = lookupType H u)) ∧
    (∀ H es H2, recursiveMakeNonStructList fuel H es = .ok H2 →
      FlagEvolves H H2 ∧
      (∀ e ∈ es, (lookupType H e).isSome = true →
        Cleared H2 e ∧ ∀ a, ParentReach H e a → Cleared H2 a) ∧
      (∀ u, (∀ e ∈ es, (lookupType H e).isSome = true → u ≠ e ∧ ¬ ParentReach H e u) →
        lookupType H2 u = lookupType H u)) := by
  intro fuel
  induction fuel with
  | zero =>
    constructor
    · intro H t H2 h
      cases h
    · intro H es H2 h
      cases h
  | succ fuel ih =>
    constructor
    · intro H t H2 h
      rw [recursiveMakeNonStruct] at h
      split at h
      · cases h
      · next d hld =>
        obtain ⟨hev1, hkill, hunt⟩ := ih.2 (setStruct H t false) d.extends_ H2 h
        have hev0 : FlagEvolves H (setStruct H t false) := setStruct_evolves H t
        have hev : FlagEvolves H H2 := flagEvolves_trans hev0 hev1
        have hdec : ∀ v, parentEdgeB H t v = true →
            v ∈ d.extends_ ∧ (lookupType H v).isSome = true := by
          intro v hv
          unfold parentEdgeB at hv
          rw [hld] at hv
          simp only [Bool.and_eq_true, decide_eq_true_eq] at hv
          exact hv
        refine ⟨hev, ?_, ?_, ?_⟩
        · have hc1 : Cleared (setStruct H t false) t := by
            intro d' hd'
            rw [lookup_setStruct_self, hld] at hd'
            cases hd'
            rfl
          exact cleared_forward hev1 hc1
        · intro a hra
          have hra' : Relation.TransGen (fun x y => parentEdgeB H x y = true) t a := hra
          obtain ⟨e, hedge, hrtg⟩ := Relation.TransGen.head'_iff.mp hra'
          obtain ⟨hmem, hpres⟩ := hdec e hedge
          have hpres' : (lookupType (setStruct H t false) e).isSome = true := by
            rw [isSome_evolves hev0]; exact hpres
          rcases Relation.reflTransGen_iff_eq_or_transGen.mp hrtg with heq | htg
          · subst heq
            exact (hkill _ hmem hpres').1
          · exact (hkill e hmem hpres').2 a ((parentReach_congr hev0).mpr htg)
        · intro u hne hnr
          have h1 : lookupType (setStruct H t false) u = lookupType H u :=
            lookup_setStruct_ne hne
          have h2 : lookupType H2 u = lookupType (setStruct H t false) u := by
            apply hunt
            intro e hmem hpres
            have hpresH : (lookupType H e).isSome = true := by
              rw [← isSome_evolves hev0 e]; exact hpres
            have hedge : parentEdgeB H t e = true := by
              unfold parentEdgeB
              rw [hld]
              simp only [Bool.and_eq_true, decide_eq_true_eq]
              exact ⟨hmem, hpresH⟩
            constructor
            · intro hue
              exact hnr (by rw [hue]; exact Relation.TransGen.single hedge)
            · intro hre
              exact hnr (Relation.TransGen.head hedge ((parentReach_congr hev0).mp hre))
          rw [h2, h1]
    · intro H es H2 h
      cases es with
      | nil =>
        rw [recursiveMakeNonStructList] at h
        cases h
        refine ⟨flagEvolves_refl _, ?_, fun u _ => rfl⟩
        intro e he
        cases he
      | cons e rest =>
        rw [recursiveMakeNonStructList] at h
        split at h
        · next hle =>
          obtain ⟨hev, hkill, hunt⟩ := ih.2 H rest H2 h
          refine ⟨hev, ?_, ?_⟩
          · intro e' hmem hpres
            rcases List.mem_cons.mp hmem with rfl | hmem'
            · rw [hle] at hpres; cases hpres
            · exact hkill e' hmem' hpres
          · intro u hu
            exact hunt u (fun e' hmem' hpres' => hu e' (List.mem_cons_of_mem _ hmem') hpres')
        · next de hle =>
          obtain ⟨H1, hrm, h2⟩ := except_bind_ok h
          obtain ⟨hevA, hclA, hancA, huntA⟩ := ih.1 H e H1 hrm
          obtain ⟨hevB, hkillB, huntB⟩ := ih.2 H1 rest H2 h2
          have hev : FlagEvolves H H2 := flagEvolves_trans hevA hevB
          refine ⟨hev, ?_, ?_⟩
          · intro e' hmem hpres
            rcases List.mem_cons.mp hmem with rfl | hmem'
            · refine ⟨cleared_forward hevB hclA, ?_⟩
              intro a hra
              exact cleared_forward hevB (hancA a hra)
            · have hpres1 : (lookupType H1 e').isSome = true := by
                rw [isSome_evolves hevA]; exact hpres
              obtain ⟨hc, hanc⟩ := hkillB e' hmem' hpres1
              exact ⟨hc, fun a hra => hanc a ((parentReach_congr hevA).mpr hra)⟩
          · intro u hu
            have hu1 := hu e (List.mem_cons_self _ _) (by rw [hle]; rfl)
            have h1 : lookupType H1 u = lookupType H u := huntA u hu1.1 hu1.2
            have h2' : lookupType H2 u = lookupType H1 u := by
              apply huntB
              intro e' hmem' hpres'
              have hpresH : (lookupType H e').isSome = true := by
                rw [← isSome_evolves hevA]; exact hpres'
              obtain ⟨hne, hnr⟩ := hu e' (List.mem_cons_of_mem _ hmem') hpresH
              exact ⟨hne, fun hr => hnr ((parentReach_congr hevA).mp hr)⟩
            rw [h2', h1]

/-- Loop invariant of the ancestor-propagation pass: every present non-struct
node is either already killed (all ancestors non-struct) or — if it is not an
enum — still pending in the worklist; non-struct enums must already be
killed, since the loop skips them. -/
def Safe (H : TypeHierarchy) (pending : List String) : Prop :=
  ∀ t d, lookupType H t = some d → d.representAsStruct = false →
    (d.isEnum = true → Killed H t) ∧ (d.isEnum = false → t ∈ pending ∨ Killed H t)

/-- The propagation loop turns the invariant into the final closedness: with
an empty worklist every present non-struct node is killed. -/
theorem propagateAux_safe (fuel : Nat) : ∀ keys H Hf, propagateAux fuel keys H = .ok Hf →
    Safe H keys → Safe Hf [] := by
  intro keys
  induction keys with
  | nil =>
    intro H Hf h hs
    rw [propagateAux] at h
    cases h
    exact hs
  | cons n rest ih =>
    intro H Hf h hs
    rw [propagateAux] at h
    split at h
    · next hnone =>
      apply ih H Hf h
      intro t d hd hflag
      obtain ⟨h1, h2⟩ := hs t d hd hflag
      refine ⟨h1, fun henum => ?_⟩
      rcases h2 henum with hmem | hk
      · rcases List.mem_cons.mp hmem with rfl | hmem'
        · rw [hd] at hnone; cases hnone
        · exact Or.inl hmem'
      · exact Or.inr hk
    · next dn hln =>
      split at h
      · next hde =>
        apply ih H Hf h
        intro t d hd hflag
        obtain ⟨h1, h2⟩ := hs t d hd hflag
        refine ⟨h1, fun henum => ?_⟩
        rcases h2 henum with hmem | hk
        · rcases List.mem_cons.mp hmem with rfl | hmem'
          · rw [hln] at hd
            cases hd
            rw [hde] at henum
            cases henum
          · exact Or.inl hmem'
        · exact Or.inr hk
      · split at h
        · next hds =>
          apply ih H Hf h
          intro t d hd hflag
          obtain ⟨h1, h2⟩ := hs t d hd hflag
          refine ⟨h1, fun henum => ?_⟩
          rcases h2 henum with hmem | hk
          · rcases List.mem_cons.mp hmem with rfl | hmem'
            · rw [hln] at hd
              cases hd
              rw [hds] at hflag
              cases hflag
            · exact Or.inl hmem'
          · exact Or.inr hk
        · obtain ⟨H2, hrm, h2run⟩ := except_bind_ok h
          obtain ⟨hev, hcl, hanc, hunt⟩ := (rmns_all fuel).1 H n H2 hrm
          apply ih H2 Hf h2run
          intro t d2 hd2 hflag
          by_cases hnt : t = n ∨ ParentReach H n t
          · have hkt : Killed H2 t := by
              intro a hra
              have hraH : ParentReach H t a := (parentReach_congr hev).mp hra
              rcases hnt with rfl | hnt'
              · exact hanc a hraH
              · exact hanc a (Relation.TransGen.trans hnt' hraH)
            exact ⟨fun _ => hkt, fun _ => Or.inr hkt⟩
          · push_neg at hnt
            obtain ⟨hne, hnr⟩ := hnt
            have hsame : lookupType H2 t = lookupType H t := hunt t hne hnr
            rw [hsame] at hd2
            obtain ⟨h1, h2⟩ := hs t d2 hd2 hflag
            refine ⟨fun henum => killed_forward hev (h1 henum), fun henum => ?_⟩
            rcases h2 henum with hmem | hk
            · rcases List.mem_cons.mp hmem with rfl | hmem'
              · exact absurd rfl hne
              · exact Or.inl hmem'
            · exact Or.inr (killed_forward hev hk)

/-- `isSubClass` is deterministic across fuels: two successful runs agree. -/
theorem isSubClass_det_all : ∀ f : Nat,
    (∀ f' H t sub b b', isSubClass f H t sub = .ok b →
      isSubClass f' H t sub = .ok b' → b = b') ∧
    (∀ f' H es sub b b', isSubClassList f H es sub = .ok b →
      isSubClassList f' H es sub = .ok b' → b = b') := by
  intro f
  induction f with
  | zero =>
    constructor
    · intro f' H t sub b b' h h'
      cases h
    · intro f' H es sub b b' h h'
      cases h
  | succ f ih =>
    constructor
    · intro f' H t sub b b' h h'
      cases f' with
      | zero => cases h'
      | succ f2 =>
        rw [isSubClass] at h h'
        cases hl : lookupType H t with
        | none => rw [hl] at h; cases h
        | some d =>
          rw [hl] at h h'
          exact ih.2 f2 H d.extends_ sub b b' h h'
    · intro f' H es sub b b' h h'
      cases f' with
      | zero => cases h'
      | succ f2 =>
        cases es with
        | nil =>
          rw [isSubClassList] at h h'
          cases h
          cases h'
          rfl
        | cons e rest =>
          rw [isSubClassList] at h h'
          by_cases he : (e == sub) = true
          · rw [if_pos he] at h h'
            cases h
            cases h'
            rfl
          · rw [if_neg he] at h h'
            cases hl : lookupType H e with
            | none =>
              rw [hl] at h h'
              exact ih.2 f2 H rest sub b b' h h'
            | some de =>
              rw [hl] at h h'
              obtain ⟨r, hr, hrest⟩ := except_bind_ok h
              obtain ⟨r', hr', hrest'⟩ := except_bind_ok h'
              have hrr : r = r' := ih.1 f2 H e sub r r' hr hr'
              subst hrr
              cases r with
              | true =>
                rw [if_pos rfl] at hrest hrest'
                cases hrest
                cases hrest'
                rfl
              | false =>
                rw [if_neg (fun hx => Bool.noConfusion hx)] at hrest hrest'
                exact ih.2 f2 H rest sub b b' hrest hrest'

/-- If the looked-for name occurs in the list itself, a successful list run
returns true. -/
theorem isSubClassList_mem_name : ∀ fuel H es sub b,
    isSubClassList fuel H es sub = .ok b → sub ∈ es → b = true := by
  intro fuel
  induction fuel with
  | zero =>
    intro H es sub b h hm
    cases h
  | succ fuel ih =>
    intro H es sub b h hm
    cases es with
    | nil => cases hm
    | cons e rest =>
      rw [isSubClassList] at h
      by_cases he : (e == sub) = true
      · rw [if_pos he] at h
        cases h
        rfl
      · rw [if_neg he] at h
        have hm' : sub ∈ rest := by
          rcases List.mem_cons.mp hm with heq | hm'
          · exact absurd (by rw [heq]; simp) he
          · exact hm'
        cases hl : lookupType H e with
        | none =>
          rw [hl] at h
          exact ih H rest sub b h hm'
        | some de =>
          rw [hl] at h
          obtain ⟨r, hr, hrest⟩ := except_bind_ok h
          cases r with
          | true =>
            rw [if_pos rfl] at hrest
            cases hrest
            rfl
          | false =>
            rw [if_neg (fun hx => Bool.noConfusion hx)] at hrest
            exact ih H rest sub b hrest hm'

/-- A successful list run returning false means every member differs from the
looked-for name and, if present, resolves to false at some fuel. -/
theorem isSubClassList_false_all : ∀ fuel H es sub,
    isSubClassList fuel H es sub = .ok false →
    ∀ e ∈ es, e ≠ sub ∧ ((lookupType H e).isSome = true →
      ∃ g, isSubClass g H e sub = .ok false) := by
  intro fuel
  induction fuel with
  | zero =>
    intro H es sub h
    cases h
  | succ fuel ih =>
    intro H es sub h e hmem
    cases es with
    | nil => cases hmem
    | cons e0 rest =>
      rw [isSubClassList] at h
      by_cases he : (e0 == sub) = true
      · rw [if_pos he] at h
        cases h
      · rw [if_neg he] at h
        rcases List.mem_cons.mp hmem with rfl | hmem'
        · refine ⟨fun heq => he (by rw [heq]; simp), ?_⟩
          intro hp
          cases hl : lookupType H e with
          | none => rw [hl] at hp; cases hp
          | some de =>
            rw [hl] at h
            obtain ⟨r, hr, hrest⟩ := except_bind_ok h
            cases r with
            | true =>
              rw [if_pos rfl] at hrest
              cases hrest
            | false => exact ⟨fuel, hr⟩
        · cases hl : lookupType H e0 with
          | none =>
            rw [hl] at h
            exact ih H rest sub h e hmem'
          | some de0 =>
            rw [hl] at h
            obtain ⟨r, hr, hrest⟩ := except_bind_ok h
            cases r with
            | true =>
              rw [if_pos rfl] at hrest
              cases hrest
            | false =>
              rw [if_neg (fun hx => Bool.noConfusion hx)] at hrest
              exact ih H rest sub hrest e hmem'

/-- A false overall lineage fallback loop means every base resolved to
false. -/
theorem structLineageGo_false_all (fuel : Nat) (H : TypeHierarchy) (t : String) :
    ∀ l, structLineageGo fuel H t l = .ok false →
      ∀ base ∈ l, isSubClass fuel H t base = .ok false := by
  intro l
  induction l with
  | nil =>
    intro h base hb
    cases hb
  | cons b0 rest ih =>
    intro h base hb
    rw [structLineageGo] at h
    obtain ⟨r, hr, hrest⟩ := except_bind_ok h
    cases r with
    | true =>
      rw [if_pos rfl] at hrest
      cases hrest
    | false =>
      rw [if_neg (fun hx => Bool.noConfusion hx)] at hrest
      rcases List.mem_cons.mp hb with rfl | hb'
      · exact hr
      · exact ih hrest base hb'

/-- A true lineage fallback loop exhibits a base the node is a subclass
of. -/
theorem structLineageGo_true_ex (fuel : Nat) (H : TypeHierarchy) (t : String) :
    ∀ l, structLineageGo fuel H t l = .ok true →
      ∃ base ∈ l, isSubClass fuel H t base = .ok true := by
  intro l
  induction l with
  | nil =>
    intro h
    rw [structLineageGo] at h
    cases h
  | cons b0 rest ih =>
    intro h
    rw [structLineageGo] at h
    obtain ⟨r, hr, hrest⟩ := except_bind_ok h
    cases r with
    | true => exact ⟨b0, List.mem_cons_self _ _, hr⟩
    | false =>
      rw [if_neg (fun hx => Bool.noConfusion hx)] at hrest
      obtain ⟨base, hb, hsc⟩ := ih hrest
      exact ⟨base, List.mem_cons_of_mem _ hb, hsc⟩

theorem structLineage_false (fuel : Nat) (H : TypeHierarchy) (t : String)
    (h : structLineage fuel H t = .ok false) :
    structLineageGo fuel H t STRUCTURED_HIERARCHIES = .ok false := by
  unfold structLineage at h
  by_cases hc : STRUCTURED_HIERARCHIES.contains t = true
  · rw [if_pos hc] at h
    cases h
  · rw [if_neg hc] at h
    exact h

theorem structLineage_true_cases (fuel : Nat) (H : TypeHierarchy) (t : String)
    (h : structLineage fuel H t = .ok true) :
    STRUCTURED_HIERARCHIES.contains t = true ∨
    structLineageGo fuel H t STRUCTURED_HIERARCHIES = .ok true := by
  unfold structLineage at h
  by_cases hc : STRUCTURED_HIERARCHIES.contains t = true
  · exact Or.inl hc
  · rw [if_neg hc] at h
    exact Or.inr h

theorem contains_mem {l : List String} {a : String} (h : l.contains a = true) : a ∈ l := by
  simpa using h

theorem lookupType_eq_assoc (H : TypeHierarchy) (t : String) :
    lookupType H t = lookupAssoc H t := rfl

/-- A successful lookup exhibits the entry itself. -/
theorem lookup_entry_mem {H : TypeHierarchy} {t : String} {d : TypeDef}
    (h : lookupType H t = some d) : (t, d) ∈ H := by
  unfold lookupType at h
  cases hf : H.find? (·.1 == t) with
  | none => rw [hf] at h; cases h
  | some p =>
    rw [hf] at h
    cases h
    have hmem := List.mem_of_find?_eq_some hf
    have hpred := List.find?_some hf
    simp at hpred
    rw [← hpred]
    exact hmem

/-- What one classification step does to the struct flag: `extends` is kept,
and the flag becomes the lineage result or-ed with the input flag (the
non-struct override list is empty in the source). -/
theorem computeFlagsEntry_spec (fuel : Nat) (Hfix : TypeHierarchy)
    (enums : List (String × List String)) (t : String) (d d' : TypeDef)
    (h : computeFlagsEntry fuel Hfix enums t d = .ok d') :
    d'.extends_ = d.extends_ ∧
    ∃ lin, structLineage fuel Hfix t = .ok lin ∧
      d'.representAsStruct = (lin || d.representAsStruct) := by
  unfold computeFlagsEntry at h
  obtain ⟨a1, h1, h⟩ := except_bind_ok h
  obtain ⟨a2, h2, h⟩ := except_bind_ok h
  obtain ⟨a3, h3, h⟩ := except_bind_ok h
  obtain ⟨lin, hlin, h⟩ := except_bind_ok h
  cases h
  refine ⟨rfl, lin, hlin, ?_⟩
  cases lin <;> rfl

/-- Pointwise characterization of the classification loop: presence is
preserved and every output record comes from the input record at the same
key via one classification step. -/
theorem computeFlagsAux_spec (fuel : Nat) (Hfix : TypeHierarchy)
    (enums : List (String × List String)) :
    ∀ l l', computeFlagsAux fuel Hfix enums l = .ok l' →
      (∀ t, (lookupAssoc l' t).isSome = (lookupAssoc l t).isSome) ∧
      (∀ t d', lookupAssoc l' t = some d' →
        ∃ d, lookupAssoc l t = some d ∧ computeFlagsEntry fuel Hfix enums t d = .ok d') := by
  intro l
  induction l with
  | nil =>
    intro l' h
    rw [computeFlagsAux] at h
    cases h
    constructor
    · intro t
      rfl
    · intro t d' hd'
      cases hd'
  | cons p rest ih =>
    obtain ⟨t0, d0⟩ := p
    intro l' h
    rw [computeFlagsAux] at h
    obtain ⟨d0', hent, h⟩ := except_bind_ok h
    obtain ⟨rest', hrest, h⟩ := except_bind_ok h
    cases h
    obtain ⟨ihsome, ihlook⟩ := ih rest' hrest
    constructor
    · intro t
      rw [lookupAssoc_cons, lookupAssoc_cons]
      by_cases ht : (t0 == t) = true
      · rw [if_pos ht, if_pos ht]
        rfl
      · rw [if_neg ht, if_neg ht]
        exact ihsome t
    · intro t d' hd'
      rw [lookupAssoc_cons] at hd'
      by_cases ht : (t0 == t) = true
      · rw [if_pos ht] at hd'
        cases hd'
        have ht' : t0 = t := by simpa using ht
        subst ht'
        exact ⟨d0, by rw [lookupAssoc_cons]; simp, hent⟩
      · rw [if_neg ht] at hd'
        obtain ⟨d, hl, he⟩ := ihlook t d' hd'
        exact ⟨d, by rw [lookupAssoc_cons, if_neg ht]; exact hl, he⟩

/-- After classification of a raw hierarchy whose struct flags are all off,
every non-struct node's present parents are non-struct: the struct flag is
exactly struct-lineage membership, which is inherited downward along
`extends`. -/
theorem computeFlags_closed (fuel : Nat) (enums : List (String × List String))
    (Hraw H1 : TypeHierarchy)
    (hraw : ∀ p ∈ Hraw, p.2.representAsStruct = false)
    (hc : computeFlags fuel enums Hraw = .ok H1) :
    ∀ t dt, lookupType H1 t = some dt → dt.representAsStruct = false →
      ∀ e, parentEdgeB H1 t e = true → Cleared H1 e := by
  unfold computeFlags at hc
  obtain ⟨hsome, hlook⟩ := computeFlagsAux_spec fuel Hraw enums Hraw H1 hc
  intro t dt hdt hflag e hedge
  obtain ⟨d0, hd0, hent⟩ := hlook t dt hdt
  obtain ⟨hext_t, lin_t, hlin_t, hrs_t⟩ := computeFlagsEntry_spec fuel Hraw enums t d0 dt hent
  have hd0raw : d0.representAsStruct = false :=
    hraw (t, d0) (lookup_entry_mem hd0)
  have hlin_t_false : lin_t = false := by
    cases hlt : lin_t with
    | false => rfl
    | true =>
      rw [hlt, hd0raw] at hrs_t
      rw [hrs_t] at hflag
      cases hflag
  rw [hlin_t_false] at hlin_t
  have hedge' := hedge
  unfold parentEdgeB at hedge'
  rw [hdt] at hedge'
  simp only [Bool.and_eq_true, decide_eq_true_eq] at hedge'
  obtain ⟨hmem_e, hpres_e1⟩ := hedge'
  rw [hext_t] at hmem_e
  intro de hde
  obtain ⟨d0e, hd0e, hent_e⟩ := hlook e de hde
  obtain ⟨hext_e, lin_e, hlin_e, hrs_e⟩ := computeFlagsEntry_spec fuel Hraw enums e d0e de hent_e
  have hd0eraw : d0e.representAsStruct = false :=
    hraw (e, d0e) (lookup_entry_mem hd0e)
  rw [hd0eraw, Bool.or_false] at hrs_e
  rw [hrs_e]
  cases hle : lin_e with
  | false => rfl
  | true =>
    exfalso
    rw [hle] at hlin_e
    have hgo_t := structLineage_false fuel Hraw t hlin_t
    have hall := structLineageGo_false_all fuel Hraw t STRUCTURED_HIERARCHIES hgo_t
    have hpres_e0 : (lookupType Hraw e).isSome = true := by
      rw [lookupType_eq_assoc, ← hsome e, ← lookupType_eq_assoc, hde]
      rfl
    rcases structLineage_true_cases fuel Hraw e hlin_e with hesh | hego
    · have hmem_sh : e ∈ STRUCTURED_HIERARCHIES := contains_mem hesh
      have hsc := hall e hmem_sh
      cases fuel with
      | zero => cases hsc
      | succ f =>
        rw [isSubClass] at hsc
        rw [lookupType_eq_assoc, hd0] at hsc
        simp only at hsc
        have hb := isSubClassList_mem_name f Hraw d0.extends_ e false hsc hmem_e
        cases hb
    · obtain ⟨base, hbase_mem, hsc_e⟩ := structLineageGo_true_ex fuel Hraw e STRUCTURED_HIERARCHIES hego
      have hsc_t := hall base hbase_mem
      cases fuel with
      | zero => cases hsc_t
      | succ f =>
        rw [isSubClass] at hsc_t
        rw [lookupType_eq_assoc, hd0] at hsc_t
        simp only at hsc_t
        obtain ⟨hne_eb, hex⟩ := isSubClassList_false_all f Hraw d0.extends_ base hsc_t e hmem_e
        obtain ⟨g, hg⟩ := hex hpres_e0
        have hbb := (isSubClass_det_all g).1 (f+1) Hraw e base false true hg hsc_e
        cases hbb

/-- One cycle-breaking step never touches an enum node's record (the loop
skips enums, and only the skipped node itself is ever demoted). -/
theorem breakStep_enum_ne {fuel : Nat} {H H1 : TypeHierarchy} {n : String}
    (h : breakStep fuel H n = .ok H1) {t : String} {d : TypeDef}
    (hl : lookupType H t = some d) (he : d.isEnum = true) :
    lookupType H1 t = some d := by
  unfold breakStep at h
  split at h
  · cases h
    exact hl
  · next dn hln =>
    split at h
    · cases h
      exact hl
    · next henum =>
      split at h
      · cases h
        exact hl
      · obtain ⟨r, hr, hres⟩ := except_bind_ok h
        split at hres
        · cases hres
          have hne : t ≠ n := by
            intro hte
            rw [hte, hln] at hl
            cases hl
            exact henum he
          rw [lookup_setStruct_ne hne]
          exact hl
        · cases hres
          exact hl

/-- The whole cycle-breaking loop preserves every enum node's record. -/
theorem breakCyclesAux_enum_preserved (fuel : Nat) : ∀ names H H',
    breakCyclesAux fuel names H = .ok H' →
    ∀ t d, lookupType H t = some d → d.isEnum = true → lookupType H' t = some d := by
  intro names
  induction names with
  | nil =>
    intro H H' h t d hl he
    rw [breakCyclesAux] at h
    cases h
    exact hl
  | cons n rest ih =>
    intro H H' h t d hl he
    rw [breakCyclesAux] at h
    obtain ⟨H1, hstep, hrest⟩ := except_bind_ok h
    exact ih H1 H' hrest t d (breakStep_enum_ne hstep hl he) he

/-- **C3**: after ancestor propagation at the end of the
classification pipeline (flag computation on a raw hierarchy with all struct
flags initially off, then cycle breaking, then propagation), every node that
is not struct-representable has all the nodes reachable from it along
`extends` edges also not struct-representable. -/
theorem propagate_ancestors_nonstruct
    (fuelC fuelB fuelP : Nat) (enums : List (String × List String))
    (Hraw H1 H2 H3 : TypeHierarchy)
    (hraw : ∀ p ∈ Hraw, p.2.representAsStruct = false)
    (hc : computeFlags fuelC enums Hraw = .ok H1)
    (hb : breakCycles fuelB H1 = .ok H2)
    (hp : propagate fuelP H2 = .ok H3)
    (t : String) (d : TypeDef) (hd : lookupType H3 t = some d)
    (hns : d.representAsStruct = false)
    (a : String) (hra : ParentReach H3 t a)
    (da : TypeDef) (hda : lookupType H3 a = some da) :
    da.representAsStruct = false := by
  have hkilled1 := closed_to_killed H1 (computeFlags_closed fuelC enums Hraw H1 hraw hc)
  unfold breakCycles at hb
  have hev12 : FlagEvolves H1 H2 := breakCyclesAux_evolves hb
  have henumpres := breakCyclesAux_enum_preserved fuelB (H1.map (·.1)) H1 H2 hb
  have hsafe : Safe H2 (H2.map (·.1)) := by
    intro u du hdu hflag
    constructor
    · intro henum
      rcases hev12 u with ⟨_, e2⟩ | ⟨d1, hd1, hcase⟩
      · rw [e2] at hdu
        cases hdu
      · have henum1 : d1.isEnum = true := by
          rcases hcase with h2 | h2
          · rw [h2] at hdu
            have h3 := Option.some_inj.mp hdu
            rw [h3]
            exact henum
          · rw [h2] at hdu
            have h3 := Option.some_inj.mp hdu
            have h4 : d1.isEnum = du.isEnum := by rw [← h3]
            rw [h4]
            exact henum
        have hpres2 := henumpres u d1 hd1 henum1
        have hdd : du = d1 := by
          rw [hdu] at hpres2
          exact Option.some_inj.mp hpres2
        have hflag1 : d1.representAsStruct = false := by
          rw [← hdd]
          exact hflag
        exact killed_forward hev12 (hkilled1 u d1 hd1 hflag1)
    · intro _
      exact Or.inl (lookup_some_mem_keys hdu)
  unfold propagate at hp
  obtain ⟨h1, h2⟩ := propagateAux_safe fuelP (H2.map (·.1)) H2 H3 hp hsafe t d hd hns
  have hkt : Killed H3 t := by
    cases hie : d.isEnum with
    | true => exact h1 hie
    | false =>
      rcases h2 hie with hmem | hk
      · cases hmem
      · exact hk
  exact hkt a hra da hda

/-- The record of `Thing` in `H10p`. -/
def dThing10 : TypeDef := (lookupType H10p "Thing").getD (mkNode [] [])

/-- Witness for C3: on the concrete pipeline, `T` is non-struct after
propagation and its present ancestor `Thing` is non-struct too. -/
theorem propagate_ancestors_nonstruct_witness :
    dThing10.representAsStruct = false :=
  propagate_ancestors_nonstruct 10 10 10 [] H10raw H10f H10b H10p
    (by decide) (by rfl) (by rfl) (by rfl)
    "T" dT10 (by rfl) (by rfl)
    "Thing" (Relation.TransGen.single (by decide))
    dThing10 (by rfl)
